import Mathlib

/-!
# AmiDB storage/transaction core: a shallow embedding

This file embeds the storage and transaction core of the AmiDB engine
(pager, CRC32, WAL, transaction manager, row codec, B+Tree) as executable
Lean definitions translated from the C sources, and settles a list of
claims about that core.

Conventions of the embedding:
* Machine integers are modelled as `Nat` (or `Int` where the C uses
  signed values), with wraparound written explicitly (`% 2^32`) where the
  C's unsigned arithmetic can wrap.  `v >> k` on an unsigned value is
  `v / 2^k` and `v & 0xFF` is `v % 256`.
* Byte buffers are `List Nat` with every element `< 256` where it matters.
* The on-disk file is a byte-addressable function `Nat → Nat`.
* Record headers that the C writes by `memcpy` of a packed struct are
  serialized field by field at the struct's offsets, little-endian
  (the reference byte order of the file format).
* Fallible C functions returning an `int` error code become functions
  returning the code (as `Int`) paired with the updated state.
-/

namespace AmiDB

/-! ## Error codes (src/api/error.h) -/

def AMIDB_OK : Int := 0
def AMIDB_ERROR : Int := -1
def AMIDB_BUSY : Int := -2
def AMIDB_NOTFOUND : Int := -3
def AMIDB_CORRUPT : Int := -5
def AMIDB_NOMEM : Int := -6
def AMIDB_IOERR : Int := -7
def AMIDB_FULL : Int := -8

/-! ## Little-endian byte encoding (src/util/endian.h and the identical
static helpers in row.c / btree.c).  `put_*` produce the byte lists the C
stores; `get_*` read them back.  Shifts and masks of the C are written as
division and remainder. -/

abbrev Byte := Nat

def put_u16 (v : Nat) : List Byte :=
  [v % 256, v / 256 % 256]

def put_u32 (v : Nat) : List Byte :=
  [v % 256, v / 256 % 256, v / 65536 % 256, v / 16777216 % 256]

def put_u64 (v : Nat) : List Byte :=
  put_u32 (v % 4294967296) ++ put_u32 (v / 4294967296 % 4294967296)

def get_u16 (b : List Byte) : Nat :=
  b.getD 0 0 + 256 * b.getD 1 0

def get_u32 (b : List Byte) : Nat :=
  b.getD 0 0 + 256 * b.getD 1 0 + 65536 * b.getD 2 0 + 16777216 * b.getD 3 0

def get_u64 (b : List Byte) : Nat :=
  get_u32 b + 4294967296 * get_u32 (b.drop 4)

/-- Signed decoding of a 32-bit pattern, as the C's `(int32_t)` cast of a
`uint32_t`. -/
def toI32 (n : Nat) : Int :=
  if n < 2147483648 then (n : Int) else (n : Int) - 4294967296

/-- Unsigned encoding of an `int32_t`, as the C's `(uint32_t)` cast. -/
def ofI32 (i : Int) : Nat :=
  (i % 4294967296).toNat

def put_i32 (i : Int) : List Byte := put_u32 (ofI32 i)

def get_i32 (b : List Byte) : Int := toI32 (get_u32 b)

/-! ## CRC32 (src/util/crc32.c)

IEEE 802.3 polynomial `0xEDB88320`, reflected, table-driven.  The table is
modelled as the pure function the one-time init computes. -/

def CRC32_POLY : Nat := 0xEDB88320

/-- One bit step of the table construction: `c & 1 ? POLY ^ (c >> 1) : c >> 1`. -/
def crc32_bit (c : Nat) : Nat :=
  if c % 2 = 1 then CRC32_POLY ^^^ (c / 2) else c / 2

/-- Table entry `crc32_table[i]`: eight bit steps applied to `i`. -/
def crc32_table (i : Nat) : Nat :=
  crc32_bit (crc32_bit (crc32_bit (crc32_bit
    (crc32_bit (crc32_bit (crc32_bit (crc32_bit i)))))))

/-- One byte of the inner loop of `crc32_update`:
`crc = table[(crc ^ data[i]) & 0xFF] ^ (crc >> 8)`. -/
def crc32_byte (crc b : Nat) : Nat :=
  crc32_table ((crc ^^^ b) % 256) ^^^ (crc / 256)

/-- Update `crc32_update(crc, data, len)`: XOR in and out with `0xFFFFFFFF` around
the byte loop. -/
def crc32_update (crc : Nat) (data : List Byte) : Nat :=
  (data.foldl crc32_byte (crc ^^^ 0xFFFFFFFF)) ^^^ 0xFFFFFFFF

/-- Compute `crc32_compute(data, len) = crc32_update(0, data, len)`. -/
def crc32_compute (data : List Byte) : Nat :=
  crc32_update 0 data

/-- Chaining two `crc32_update` calls (as the WAL checksum code does over
header then payload) equals one `crc32_compute` of the concatenation. -/
theorem crc32_update_chain (a b : List Byte) :
    crc32_update (crc32_update 0 a) b = crc32_compute (a ++ b) := by
  simp only [crc32_update, crc32_compute, List.foldl_append]
  congr 1
  simp [Nat.xor_assoc]

/-! ## WAL record layout (src/txn/wal.h) -/

def WAL_BUFFER_SIZE : Nat := 32768
def WAL_REGION_START : Nat := 0x3000
def WAL_REGION_SIZE : Nat := 32 * 4096
def WAL_MAX_RECORDS : Nat := 256

def WAL_BEGIN : Nat := 0x0001
def WAL_COMMIT : Nat := 0x0002
def WAL_ABORT : Nat := 0x0003
def WAL_PAGE : Nat := 0x0010

def WAL_MAGIC : Nat := 0x57414C52

/-- Header `struct wal_record_header` (24 bytes; `offsetof(checksum) = 20`). -/
@[ext]
structure WalRecordHeader where
  magic : Nat
  record_type : Nat
  flags : Nat
  record_size : Nat
  txn_id : Nat
  checksum : Nat
deriving DecidableEq

/-- The header bytes before the checksum field (offsets 0..19). -/
def walHeaderPrefix (h : WalRecordHeader) : List Byte :=
  put_u32 h.magic ++ put_u16 h.record_type ++ put_u16 h.flags ++
    put_u32 h.record_size ++ put_u64 h.txn_id

/-- The full 24 header bytes. -/
def serializeWalHeader (h : WalRecordHeader) : List Byte :=
  walHeaderPrefix h ++ put_u32 h.checksum

/-- Reading a header back from bytes (the C's `memcpy(&hdr, data, 24)`). -/
def parseWalHeader (b : List Byte) : WalRecordHeader :=
  { magic := get_u32 b
    record_type := get_u16 (b.drop 4)
    flags := get_u16 (b.drop 6)
    record_size := get_u32 (b.drop 8)
    txn_id := get_u64 (b.drop 12)
    checksum := get_u32 (b.drop 20) }

/-- Context `struct wal_context`: the in-memory buffer holds `buffer_used` bytes,
modelled as the list of bytes written so far. -/
structure WalContext where
  buffer : List Byte
  current_txn_id : Nat
  txn_start_offset : Nat
  wal_head : Nat
  wal_tail : Nat
  checkpoint_count : Nat
  total_records : Nat
deriving DecidableEq

/-- Function `wal_create`: zero-initialized context. -/
def wal_create : WalContext :=
  { buffer := [], current_txn_id := 0, txn_start_offset := 0,
    wal_head := 0, wal_tail := 0, checkpoint_count := 0, total_records := 0 }

/-- Function `wal_write_record` (src/txn/wal.c,
lines 58-111).  Builds the header, computes the CRC over the 20 header
bytes before the checksum field and then over the payload, and appends
header + payload to the buffer.  Fails with `AMIDB_FULL`, leaving the
context untouched, when the record does not fit. -/
def wal_write_record (wal : WalContext) (type : Nat) (payload : List Byte) :
    Int × WalContext :=
  let record_size := 24 + payload.length
  if wal.buffer.length + record_size > WAL_BUFFER_SIZE then
    (AMIDB_FULL, wal)
  else
    let hdr0 : WalRecordHeader :=
      { magic := WAL_MAGIC, record_type := type, flags := 0,
        record_size := record_size, txn_id := wal.current_txn_id, checksum := 0 }
    let crc0 := crc32_update 0 (walHeaderPrefix hdr0)
    let crc := if payload.length > 0 then crc32_update crc0 payload else crc0
    let hdr := { hdr0 with checksum := crc }
    (AMIDB_OK,
      { wal with
          buffer := wal.buffer ++ serializeWalHeader hdr ++ payload
          total_records := wal.total_records + 1 })

/-- Function `wal_verify_checksum` (src/txn/wal.c, lines
166-196).  `record_data` is the byte span starting at the record;
`record_size` is the caller-supplied total size.  The payload size is
taken from the embedded header with the C's `uint32_t` wraparound. -/
def wal_verify_checksum (record_data : List Byte) (record_size : Nat) : Bool :=
  if record_size < 24 then false
  else
    let hdr := parseWalHeader (record_data.take 24)
    let stored := hdr.checksum
    let payload_size := (hdr.record_size + 4294967296 - 24) % 4294967296
    let payload := (record_data.drop 24).take payload_size
    let c0 := crc32_update 0 (record_data.take 20)
    let computed := if payload_size > 0 then crc32_update c0 payload else c0
    computed = stored

/-- Function `wal_reset_buffer` (src/txn/wal.c, lines 321-330). -/
def wal_reset_buffer (wal : WalContext) : WalContext :=
  { wal with buffer := [], wal_head := 0, wal_tail := 0 }

/-! ## Lemmas on the byte codec and the CRC -/

theorem put_u16_length (v : Nat) : (put_u16 v).length = 2 := rfl

theorem put_u32_length (v : Nat) : (put_u32 v).length = 4 := rfl

theorem put_u64_length (v : Nat) : (put_u64 v).length = 8 := rfl

theorem walHeaderPrefix_length (h : WalRecordHeader) :
    (walHeaderPrefix h).length = 20 := by
  simp [walHeaderPrefix, put_u32, put_u16, put_u64]

theorem serializeWalHeader_length (h : WalRecordHeader) :
    (serializeWalHeader h).length = 24 := by
  simp [serializeWalHeader, walHeaderPrefix, put_u32, put_u16, put_u64]

/-- Parsing a serialized header (with any trailing bytes) recovers the
fields reduced to their C storage widths. -/
theorem parse_serializeWalHeader (h : WalRecordHeader) (rest : List Byte) :
    parseWalHeader (serializeWalHeader h ++ rest) =
      { magic := h.magic % 4294967296
        record_type := h.record_type % 65536
        flags := h.flags % 65536
        record_size := h.record_size % 4294967296
        txn_id := h.txn_id % 18446744073709551616
        checksum := h.checksum % 4294967296 } := by
  simp only [parseWalHeader, serializeWalHeader, walHeaderPrefix, put_u32,
    put_u16, put_u64, get_u32, get_u16, get_u64, List.append_assoc,
    List.cons_append, List.nil_append, List.drop_succ_cons, List.drop_zero,
    List.getD_cons_zero, List.getD_cons_succ]
  refine WalRecordHeader.ext ?_ ?_ ?_ ?_ ?_ ?_ <;> simp <;> omega

theorem crc32_bit_lt {c : Nat} (h : c < 4294967296) :
    crc32_bit c < 4294967296 := by
  unfold crc32_bit
  split
  · exact @Nat.xor_lt_two_pow _ _ 32 (by decide) (by omega)
  · omega

theorem crc32_table_lt {i : Nat} (h : i < 4294967296) :
    crc32_table i < 4294967296 := by
  unfold crc32_table
  exact crc32_bit_lt (crc32_bit_lt (crc32_bit_lt (crc32_bit_lt
    (crc32_bit_lt (crc32_bit_lt (crc32_bit_lt (crc32_bit_lt h)))))))

theorem crc32_byte_lt {crc : Nat} (b : Nat) (h : crc < 4294967296) :
    crc32_byte crc b < 4294967296 := by
  unfold crc32_byte
  exact @Nat.xor_lt_two_pow _ _ 32 (crc32_table_lt (by omega)) (by omega)

theorem foldl_crc32_byte_lt (data : List Byte) :
    ∀ {init : Nat}, init < 4294967296 →
      data.foldl crc32_byte init < 4294967296 := by
  induction data with
  | nil => intro init h; exact h
  | cons a l ih =>
    intro init h
    rw [List.foldl_cons]
    exact ih (crc32_byte_lt a h)

theorem crc32_update_lt {crc : Nat} (data : List Byte) (h : crc < 4294967296) :
    crc32_update crc data < 4294967296 := by
  unfold crc32_update
  exact @Nat.xor_lt_two_pow _ _ 32
    (foldl_crc32_byte_lt data (@Nat.xor_lt_two_pow _ _ 32 h (by decide)))
    (by decide)

/-! ## Claim C4: the WAL record checksum -/

/-- A WAL context about to log records of transaction 1. -/
def c4_wal : WalContext := { wal_create with current_txn_id := 1 }

set_option maxRecDepth 8192 in
/-- C4 (counterexample): for the BEGIN record of transaction 1 built by
`wal_write_record`, the stored checksum field does NOT equal the CRC32
computed over the whole record's bytes with the 4-byte checksum field
treated as zero.  The code computes the CRC over the 20 header bytes
before the checksum field (plus the payload); it never feeds four zero
bytes in place of the checksum field, and CRC32 of a message is not
invariant under appending four zero bytes. -/
theorem C4_counterexample :
    (parseWalHeader (wal_write_record c4_wal WAL_BEGIN []).2.buffer).checksum
      ≠ crc32_compute ((wal_write_record c4_wal WAL_BEGIN []).2.buffer.take 20
          ++ [0, 0, 0, 0]) := by decide

/-- C4 (amended): for every WAL record successfully built by
`wal_write_record`, the stored checksum field equals the CRC32 computed
over the header bytes up to (excluding) the checksum field followed by
the payload bytes — the checksum field is skipped, not zero-filled — and
`wal_verify_checksum` accepts the unmodified record. -/
theorem C4_wal_record_checksum (wal : WalContext) (type : Nat)
    (payload : List Byte)
    (hok : (wal_write_record wal type payload).1 = AMIDB_OK) :
    (parseWalHeader
        ((wal_write_record wal type payload).2.buffer.drop wal.buffer.length)).checksum
      = crc32_compute
          (((wal_write_record wal type payload).2.buffer.drop
              wal.buffer.length).take 20 ++ payload)
    ∧ wal_verify_checksum
        ((wal_write_record wal type payload).2.buffer.drop wal.buffer.length)
        (24 + payload.length) = true := by
  unfold wal_write_record at hok ⊢
  by_cases hfull : wal.buffer.length + (24 + payload.length) > WAL_BUFFER_SIZE
  · rw [if_pos hfull] at hok
    exact absurd hok (by simp [AMIDB_FULL, AMIDB_OK])
  · rw [if_neg hfull] at hok ⊢
    simp only
    set hdr0 : WalRecordHeader :=
      { magic := WAL_MAGIC, record_type := type, flags := 0,
        record_size := 24 + payload.length, txn_id := wal.current_txn_id,
        checksum := 0 } with hdr0_def
    set crc0 := crc32_update 0 (walHeaderPrefix hdr0) with crc0_def
    set crc := if payload.length > 0 then crc32_update crc0 payload else crc0
      with crc_def
    set hdr : WalRecordHeader := { hdr0 with checksum := crc } with hdr_def
    have hcrc0_lt : crc0 < 4294967296 := crc32_update_lt _ (by decide)
    have hcrc_lt : crc < 4294967296 := by
      rw [crc_def]
      split
      · exact crc32_update_lt _ hcrc0_lt
      · exact hcrc0_lt
    have hdrop :
        (wal.buffer ++ serializeWalHeader hdr ++ payload).drop wal.buffer.length
          = serializeWalHeader hdr ++ payload := by
      rw [List.append_assoc, List.drop_left]
    have hprefix_eq : walHeaderPrefix hdr = walHeaderPrefix hdr0 := rfl
    have htake20 :
        (serializeWalHeader hdr ++ payload).take 20 = walHeaderPrefix hdr := by
      rw [serializeWalHeader, List.append_assoc,
        List.take_left' (walHeaderPrefix_length hdr)]
    have hcrc_val : crc = crc32_compute (walHeaderPrefix hdr0 ++ payload) := by
      rw [crc_def, crc0_def]
      rcases payload with _ | ⟨b, rest⟩
      · simp [crc32_compute]
      · rw [if_pos (by simp), crc32_update_chain]
    have hparse :
        parseWalHeader (serializeWalHeader hdr ++ payload)
          = { magic := hdr.magic % 4294967296
              record_type := hdr.record_type % 65536
              flags := hdr.flags % 65536
              record_size := hdr.record_size % 4294967296
              txn_id := hdr.txn_id % 18446744073709551616
              checksum := hdr.checksum % 4294967296 } :=
      parse_serializeWalHeader hdr payload
    constructor
    · rw [hdrop, hparse, htake20, hprefix_eq]
      show hdr.checksum % 4294967296 = _
      rw [hdr_def]
      show crc % 4294967296 = _
      rw [Nat.mod_eq_of_lt hcrc_lt, hcrc_val]
    · rw [hdrop]
      unfold wal_verify_checksum
      rw [if_neg (by omega)]
      have htake24 :
          (serializeWalHeader hdr ++ payload).take 24 = serializeWalHeader hdr :=
        List.take_left' (serializeWalHeader_length hdr)
      have hparse24 :
          parseWalHeader ((serializeWalHeader hdr ++ payload).take 24)
            = { magic := hdr.magic % 4294967296
                record_type := hdr.record_type % 65536
                flags := hdr.flags % 65536
                record_size := hdr.record_size % 4294967296
                txn_id := hdr.txn_id % 18446744073709551616
                checksum := hdr.checksum % 4294967296 } := by
        rw [htake24, ← List.append_nil (serializeWalHeader hdr)]
        exact parse_serializeWalHeader hdr []
      simp only [hparse24]
      have hsize_lt : (24 + payload.length) < 4294967296 := by
        simp only [WAL_BUFFER_SIZE] at hfull; omega
      have hrecsize : hdr.record_size % 4294967296 = 24 + payload.length := by
        show (24 + payload.length) % 4294967296 = 24 + payload.length
        exact Nat.mod_eq_of_lt hsize_lt
      rw [hrecsize]
      have hps : (24 + payload.length + 4294967296 - 24) % 4294967296
          = payload.length := by omega
      rw [hps]
      have hdrop24 : (serializeWalHeader hdr ++ payload).drop 24 = payload :=
        List.drop_left' (serializeWalHeader_length hdr)
      rw [hdrop24, List.take_length, htake20, hprefix_eq]
      have hstored : hdr.checksum % 4294967296 = crc := by
        rw [hdr_def]; exact Nat.mod_eq_of_lt hcrc_lt
      rw [hstored, hcrc_val]
      rcases payload with _ | ⟨b, rest⟩
      · simp [crc32_compute]
      · rw [if_pos (by simp), crc32_update_chain]
        simp

/-! ## Claim C9: full WAL buffer leaves the context unchanged -/

/-- C9: if the record (24-byte header plus payload) exceeds the remaining
space of the in-memory WAL buffer, `wal_write_record` returns `AMIDB_FULL`
and the context — in particular the buffer contents and the used byte
count — is unchanged. -/
theorem C9_wal_write_record_full (wal : WalContext) (type : Nat)
    (payload : List Byte)
    (h : wal.buffer.length + (24 + payload.length) > WAL_BUFFER_SIZE) :
    wal_write_record wal type payload = (AMIDB_FULL, wal) := by
  unfold wal_write_record
  rw [if_pos h]

/-- A WAL context whose buffer already holds 32760 of the 32768 bytes. -/
def c9_wal : WalContext := { wal_create with buffer := List.replicate 32760 0 }

set_option maxRecDepth 8192 in
/-- C4 (witness): the amended checksum law evaluated on the BEGIN record
of transaction 1. -/
theorem C4_witness :
    (wal_write_record c4_wal WAL_BEGIN []).1 = AMIDB_OK
    ∧ ((parseWalHeader
          ((wal_write_record c4_wal WAL_BEGIN []).2.buffer.drop
            c4_wal.buffer.length)).checksum
        = crc32_compute
            (((wal_write_record c4_wal WAL_BEGIN []).2.buffer.drop
                c4_wal.buffer.length).take 20 ++ [])
      ∧ wal_verify_checksum
          ((wal_write_record c4_wal WAL_BEGIN []).2.buffer.drop
            c4_wal.buffer.length)
          (24 + ([] : List Byte).length) = true) :=
  ⟨by decide, C4_wal_record_checksum c4_wal WAL_BEGIN [] (by decide)⟩

/-- C9 (witness): writing a 24-byte COMMIT record into a buffer with only
8 free bytes fails with `AMIDB_FULL` and leaves the context unchanged. -/
theorem C9_witness : wal_write_record c9_wal WAL_COMMIT [] = (AMIDB_FULL, c9_wal) :=
  C9_wal_write_record_full c9_wal WAL_COMMIT [] (by
    show WAL_BUFFER_SIZE < c9_wal.buffer.length + (24 + ([] : List Byte).length)
    have hb : c9_wal.buffer = List.replicate 32760 0 := rfl
    rw [hb, List.length_replicate]
    decide)

/-! ## Pager (src/storage/pager.c)

The backing file is modelled as a byte-addressable total function
`Nat → Byte` (unwritten bytes read as zero, matching a freshly extended
file).  The allocation bitmap is the predicate `bit i is set`; its byte
serialization into page 0 follows the C's layout (bit `i` lives in byte
`i / 8` at bit position `i % 8`). -/

def AMIDB_PAGE_SIZE : Nat := 4096
def AMIDB_MAGIC : Nat := 0x416D6944
def AMIDB_VERSION : Nat := 1
def AMIDB_MAX_PAGES : Nat := 4096
def PAGE_TYPE_FREE : Nat := 0
def DB_FLAG_DIRTY : Nat := 0x0001

abbrev File := Nat → Byte

/-- Writing a byte span at an offset (the effect of `file_seek` +
`file_write`). -/
def file_write_bytes (f : File) (off : Nat) (data : List Byte) : File :=
  fun a => if off ≤ a ∧ a < off + data.length then data.getD (a - off) 0 else f a

/-- Reading `len` bytes at an offset (the effect of `file_seek` +
`file_read`). -/
def file_read_bytes (f : File) (off len : Nat) : List Byte :=
  (List.range len).map fun i => f (off + i)

/-- Structure `struct amidb_file_header` (reserved words always zero). -/
structure FileHeader where
  magic : Nat
  version : Nat
  page_size : Nat
  page_count : Nat
  first_free_page : Nat
  root_page : Nat
  wal_offset : Nat
  flags : Nat
  hdr_wal_head : Nat
  hdr_wal_tail : Nat
  catalog_root : Nat
deriving DecidableEq

/-- Helper `init_file_header`. -/
def init_file_header : FileHeader :=
  { magic := AMIDB_MAGIC, version := AMIDB_VERSION, page_size := AMIDB_PAGE_SIZE,
    page_count := 1, first_free_page := 0, root_page := 0, wal_offset := 0,
    flags := 0, hdr_wal_head := 0, hdr_wal_tail := 0, catalog_root := 0 }

/-- Helper `serialize_header`: 44 bytes of fields plus 20 reserved zero
bytes (64 bytes total). -/
def serialize_header (h : FileHeader) : List Byte :=
  put_u32 h.magic ++ put_u32 h.version ++ put_u32 h.page_size ++
    put_u32 h.page_count ++ put_u32 h.first_free_page ++ put_u32 h.root_page ++
    put_u32 h.wal_offset ++ put_u32 h.flags ++ put_u32 h.hdr_wal_head ++
    put_u32 h.hdr_wal_tail ++ put_u32 h.catalog_root ++ List.replicate 20 0

/-- Helper `deserialize_header`. -/
def deserialize_header (b : List Byte) : FileHeader :=
  { magic := get_u32 b, version := get_u32 (b.drop 4),
    page_size := get_u32 (b.drop 8), page_count := get_u32 (b.drop 12),
    first_free_page := get_u32 (b.drop 16), root_page := get_u32 (b.drop 20),
    wal_offset := get_u32 (b.drop 24), flags := get_u32 (b.drop 28),
    hdr_wal_head := get_u32 (b.drop 32), hdr_wal_tail := get_u32 (b.drop 36),
    catalog_root := get_u32 (b.drop 40) }

abbrev Bitmap := Nat → Bool

def bitmap_set (bm : Bitmap) (bit : Nat) : Bitmap :=
  fun k => if k = bit then true else bm k

def bitmap_clear (bm : Bitmap) (bit : Nat) : Bitmap :=
  fun k => if k = bit then false else bm k

def bitmap_test (bm : Bitmap) (bit : Nat) : Bool := bm bit

/-- Byte `j` of the on-disk bitmap: bit `i` is stored in byte `i / 8` at
bit position `i % 8`. -/
def bitmap_byte (bm : Bitmap) (j : Nat) : Byte :=
  (if bm (8 * j) then 1 else 0) + 2 * (if bm (8 * j + 1) then 1 else 0) +
  4 * (if bm (8 * j + 2) then 1 else 0) + 8 * (if bm (8 * j + 3) then 1 else 0) +
  16 * (if bm (8 * j + 4) then 1 else 0) + 32 * (if bm (8 * j + 5) then 1 else 0) +
  64 * (if bm (8 * j + 6) then 1 else 0) + 128 * (if bm (8 * j + 7) then 1 else 0)

/-- The `AMIDB_MAX_PAGES / 8 = 512` bitmap bytes held in page 0. -/
def serialize_bitmap (bm : Bitmap) : List Byte :=
  (List.range 512).map (bitmap_byte bm)

/-- Loading the bitmap from its bytes (`bitmap_test` on the loaded bytes). -/
def bitmap_of_bytes (b : List Byte) : Bitmap :=
  fun i => b.getD (i / 8) 0 / 2 ^ (i % 8) % 2 = 1

/-- State `struct amidb_pager`: file handle, cached header, bitmap and
mode flag. -/
structure Pager where
  file : File
  header : FileHeader
  bitmap : Bitmap
  read_only : Bool

/-- The full 4096-byte page-0 image the pager writes: header, bitmap and
zero padding (the write buffer is allocated cleared). -/
def header_page_bytes (h : FileHeader) (bm : Bitmap) : List Byte :=
  serialize_header h ++ serialize_bitmap bm ++ List.replicate 3520 0

/-- Function `pager_write_header` (src/storage/pager.c, lines 566-591). -/
def pager_write_header (p : Pager) : Int × Pager :=
  if p.read_only then (-1, p)
  else (0, { p with file := file_write_bytes p.file 0 (header_page_bytes p.header p.bitmap) })

/-- The stamped buffer `pager_write_page` puts on disk: page number at
offset 0, caller's bytes 4..11 preserved except the checksum at 8..11,
which is the CRC32 of the body (bytes 12..4095). -/
def stamp_page (page_num : Nat) (data : List Byte) : List Byte :=
  put_u32 page_num ++ (data.drop 4).take 4
    ++ put_u32 (crc32_compute ((data.drop 12).take 4084)) ++ (data.drop 12).take 4084

/-- Function `pager_write_page` (src/storage/pager.c, lines 501-535). -/
def pager_write_page (p : Pager) (page_num : Nat) (data : List Byte) :
    Int × Pager :=
  if p.read_only = true ∨ AMIDB_MAX_PAGES ≤ page_num then (-1, p)
  else
    (0, { p with
            file := file_write_bytes p.file (page_num * AMIDB_PAGE_SIZE)
                      (stamp_page page_num data) })

/-- Function `pager_read_page` (src/storage/pager.c, lines 462-498):
reads 4096 bytes and verifies the stored page number and checksum. -/
def pager_read_page (p : Pager) (page_num : Nat) : Int × List Byte :=
  if p.header.page_count ≤ page_num then (-1, [])
  else
    let data := file_read_bytes p.file (page_num * AMIDB_PAGE_SIZE) AMIDB_PAGE_SIZE
    if get_u32 data ≠ page_num then (-1, data)
    else if get_u32 (data.drop 8) ≠ crc32_compute (data.drop 12) then (-1, data)
    else (0, data)

/-- Function `pager_sync` (a working fsync is assumed; the model's file is
always durable). -/
def pager_sync (_p : Pager) : Int := 0

/-- The scan of `pager_allocate_page`'s `for (i = 1; i < AMIDB_MAX_PAGES; i++)`
loop: first clear bit at index `≥ i`, with `fuel = AMIDB_MAX_PAGES - i`
iterations remaining. -/
def find_free_page (bm : Bitmap) : Nat → Nat → Option Nat
  | _, 0 => none
  | i, fuel + 1 => if bitmap_test bm i = false then some i else find_free_page bm (i + 1) fuel

/-- The 4096-byte image `pager_allocate_page` writes to a fresh page:
zeroed, stamped with its page number, `page_type = PAGE_TYPE_FREE`, and
the checksum of the zero body. -/
def fresh_page_bytes (i : Nat) : List Byte :=
  put_u32 i ++ [PAGE_TYPE_FREE, 0, 0, 0] ++
    put_u32 (crc32_compute (List.replicate 4084 0)) ++ List.replicate 4084 0

/-- Function `pager_allocate_page` (src/storage/pager.c, lines 372-428):
find the lowest clear bit `≥ 1`, set it, bump `page_count`, persist
header+bitmap to page 0, and write an initialized page image.  Returns
`(rc, pager', allocated page)`. -/
def pager_allocate_page (p : Pager) : Int × Pager × Option Nat :=
  if p.read_only then (-1, p, none)
  else
    match find_free_page p.bitmap 1 (AMIDB_MAX_PAGES - 1) with
    | none => (-1, p, none)
    | some i =>
      let bm' := bitmap_set p.bitmap i
      let hdr' := if p.header.page_count ≤ i
                  then { p.header with page_count := i + 1 } else p.header
      let f1 := file_write_bytes p.file 0 (header_page_bytes hdr' bm')
      let f2 := file_write_bytes f1 (i * AMIDB_PAGE_SIZE) (fresh_page_bytes i)
      (0, { p with file := f2, header := hdr', bitmap := bm' }, some i)

/-- Function `pager_free_page` (src/storage/pager.c, lines 431-459):
reject page 0, out-of-range pages and pages not currently allocated;
otherwise clear the bit and persist header+bitmap. -/
def pager_free_page (p : Pager) (page_num : Nat) : Int × Pager :=
  if p.read_only = true ∨ page_num = 0 ∨ AMIDB_MAX_PAGES ≤ page_num then (-1, p)
  else if bitmap_test p.bitmap page_num = false then (-1, p)
  else
    let bm' := bitmap_clear p.bitmap page_num
    (0, { p with bitmap := bm',
                 file := file_write_bytes p.file 0 (header_page_bytes p.header bm') })

/-! ## WAL flush and recovery (src/txn/wal.c) -/

/-- Function `wal_flush` (src/txn/wal.c, lines 116-161): write the buffer
at `WAL_REGION_START + wal_head`, fsync, advance `wal_head`. -/
def wal_flush (wal : WalContext) (p : Pager) : Int × WalContext × Pager :=
  if wal.buffer.length = 0 then (AMIDB_OK, wal, p)
  else if WAL_REGION_SIZE < wal.wal_head + wal.buffer.length then
    (AMIDB_FULL, wal, p)
  else
    (AMIDB_OK,
      { wal with wal_head := wal.wal_head + wal.buffer.length },
      { p with file := file_write_bytes p.file (WAL_REGION_START + wal.wal_head) wal.buffer })

/-- Pass 1 of `wal_recover` (src/txn/wal.c, lines 234-260): walk records
from offset 0 up to `wal_head`, stopping at a magic mismatch or a failed
checksum; collect txn_ids of COMMIT records, capped at `WAL_MAX_RECORDS`.
The `fuel` argument bounds the iteration (the C loop would not terminate
on a zero-sized record). -/
def wal_scan_pass1 (region : List Byte) (wal_head : Nat) :
    Nat → List Nat → Nat → List Nat
  | _, acc, 0 => acc
  | offset, acc, fuel + 1 =>
    if offset < wal_head ∧ offset + 24 ≤ WAL_REGION_SIZE then
      let hdr := parseWalHeader ((region.drop offset).take 24)
      if hdr.magic ≠ WAL_MAGIC then acc
      else if wal_verify_checksum (region.drop offset) hdr.record_size = false then acc
      else
        let acc' := if hdr.record_type = WAL_COMMIT ∧ acc.length < WAL_MAX_RECORDS
                    then acc ++ [hdr.txn_id] else acc
        wal_scan_pass1 region wal_head (offset + hdr.record_size) acc' fuel
    else acc

/-- Pass 2 of `wal_recover` (src/txn/wal.c, lines 262-298): walk the
region again, stopping only at a magic mismatch (no checksum check), and
apply the page image of every PAGE record whose txn_id is in the
committed set via `pager_write_page`. -/
def wal_scan_pass2 (region : List Byte) (wal_head : Nat) (committed : List Nat) :
    Nat → Pager → Nat → Int × Pager
  | _, p, 0 => (AMIDB_OK, p)
  | offset, p, fuel + 1 =>
    if offset < wal_head ∧ offset + 24 ≤ WAL_REGION_SIZE then
      let hdr := parseWalHeader ((region.drop offset).take 24)
      if hdr.magic ≠ WAL_MAGIC then (AMIDB_OK, p)
      else if committed.contains hdr.txn_id ∧ hdr.record_type = WAL_PAGE then
        let page_num := get_u32 (region.drop (offset + 24))
        let image := (region.drop (offset + 28)).take AMIDB_PAGE_SIZE
        let res := pager_write_page p page_num image
        if res.1 ≠ 0 then (res.1, res.2)
        else wal_scan_pass2 region wal_head committed (offset + hdr.record_size) res.2 fuel
      else wal_scan_pass2 region wal_head committed (offset + hdr.record_size) p fuel
    else (AMIDB_OK, p)

/-- Function `wal_recover` (src/txn/wal.c, lines 201-316): read the whole
WAL region, run the two passes, sync, and clear the WAL cursors and
buffer. -/
def wal_recover (wal : WalContext) (p : Pager) : Int × WalContext × Pager :=
  let region := file_read_bytes p.file WAL_REGION_START WAL_REGION_SIZE
  let committed := wal_scan_pass1 region wal.wal_head 0 [] (WAL_REGION_SIZE + 1)
  let res := wal_scan_pass2 region wal.wal_head committed 0 p (WAL_REGION_SIZE + 1)
  if res.1 ≠ 0 then (res.1, wal, res.2)
  else (AMIDB_OK, { wal with wal_head := 0, wal_tail := 0, buffer := [] }, res.2)

/-- Function `pager_open` (src/storage/pager.c, lines 85-337), over the
initial file contents.  In write mode a 64-byte probe decides between
"existing database" (magic matches) and "new database" (anything else,
including a bad magic: the file is reinitialized).  In read-only mode no
probe runs; the header page is read and its magic checked.  A writable
open runs WAL recovery when the dirty flag is set, and a fresh database
gets the dirty flag set and persisted. -/
def pager_open (read_only : Bool) (contents : List Byte) : Int × Option Pager :=
  let file0 : File := fun a => contents.getD a 0
  let is_new_file :=
    if read_only then false
    else if 64 ≤ contents.length then
      decide (get_u32 contents ≠ AMIDB_MAGIC)
    else true
  if is_new_file then
    -- new database: fresh header, page 0 marked used, header page written
    let hdr := init_file_header
    let bm : Bitmap := bitmap_set (fun _ => false) 0
    let f1 := file_write_bytes file0 0 (header_page_bytes hdr bm)
    -- (the file is then extended with zero pages to cover the WAL region,
    -- which is a no-op on the total-function file model)
    -- a fresh writable database gets the dirty flag set and persisted
    let hdr2 := { hdr with flags := hdr.flags ||| DB_FLAG_DIRTY }
    let f2 := file_write_bytes f1 0 (header_page_bytes hdr2 bm)
    (0, some { file := f2, header := hdr2, bitmap := bm, read_only := read_only })
  else
    if contents.length < AMIDB_PAGE_SIZE then (-1, none)
    else
      let page0 := contents.take AMIDB_PAGE_SIZE
      let hdr := deserialize_header page0
      if hdr.magic ≠ AMIDB_MAGIC then (-1, none)
      else
        let bm := bitmap_of_bytes ((page0.drop 64).take 512)
        let p0 : Pager := { file := file0, header := hdr, bitmap := bm, read_only := read_only }
        if read_only = false ∧ hdr.flags % 2 = 1 then
          -- dirty flag set on a writable open: run recovery
          let wal0 := { wal_create with
                          wal_head := hdr.hdr_wal_head
                          wal_tail := hdr.hdr_wal_tail }
          let res := wal_recover wal0 p0
          if res.1 ≠ 0 then (-1, none)
          else
            let p1 := res.2.2
            let hdr' := { p1.header with
                            flags := hdr.flags - DB_FLAG_DIRTY
                            hdr_wal_head := 0
                            hdr_wal_tail := 0 }
            let f' := file_write_bytes p1.file 0 (header_page_bytes hdr' p1.bitmap)
            (0, some { p1 with file := f', header := hdr' })
        else (0, some p0)

/-! ## Claim C7: allocated pages versus the WAL region -/

/-- A bitmap with only page 0 (the header) marked used, as `pager_open`
creates for a fresh database. -/
def fresh_bitmap : Bitmap := bitmap_set (fun _ => false) 0

/-- A freshly created writable pager state. -/
def c7_pager : Pager :=
  { file := fun _ => 0, header := init_file_header, bitmap := fresh_bitmap,
    read_only := false }

/-- C7 (counterexample): on a fresh database the first three calls of
`pager_allocate_page` return pages 1, 2 and 3 — and page 3 is the first
page of the fixed WAL region (`WAL_REGION_START = 0x3000`, 32 pages), so
allocated data pages are NOT disjoint from the pages WAL flushes
overwrite.  Nothing in the pager ever marks the WAL region's bits in the
allocation bitmap. -/
theorem C7_counterexample :
    (pager_allocate_page c7_pager).2.2 = some 1
    ∧ (pager_allocate_page (pager_allocate_page c7_pager).2.1).2.2 = some 2
    ∧ (pager_allocate_page
        (pager_allocate_page (pager_allocate_page c7_pager).2.1).2.1).2.2 = some 3
    ∧ WAL_REGION_START = 3 * AMIDB_PAGE_SIZE
    ∧ 3 * AMIDB_PAGE_SIZE + AMIDB_PAGE_SIZE ≤ WAL_REGION_START + WAL_REGION_SIZE := by
  refine ⟨rfl, rfl, rfl, by decide, by decide⟩

theorem find_free_page_spec (bm : Bitmap) :
    ∀ fuel start i, find_free_page bm start fuel = some i →
      start ≤ i ∧ bm i = false ∧ ∀ j, start ≤ j → j < i → bm j = true := by
  intro fuel
  induction fuel with
  | zero => intro start i h; exact absurd h (by simp [find_free_page])
  | succ n ih =>
    intro start i h
    unfold find_free_page at h
    by_cases hfree : bitmap_test bm start = false
    · rw [if_pos hfree] at h
      cases h
      exact ⟨le_refl _, hfree, fun j h1 h2 => absurd (lt_of_le_of_lt h1 h2) (lt_irrefl _)⟩
    · rw [if_neg hfree] at h
      obtain ⟨h1, h2, h3⟩ := ih (start + 1) i h
      refine ⟨by omega, h2, fun j hj1 hj2 => ?_⟩
      rcases Nat.eq_or_lt_of_le hj1 with rfl | hj
      · simpa [bitmap_test] using eq_true_of_ne_false hfree
      · exact h3 j hj hj2

/-- C7 (amended): every page number returned by `pager_allocate_page` is
the lowest clear bitmap bit `≥ 1` — never the header page 0, but possibly
a page inside the fixed WAL region (pages 3..34), as the counterexample
shows on a fresh database. -/
theorem C7_alloc_lowest_free (p : Pager) (i : Nat)
    (h : (pager_allocate_page p).2.2 = some i) :
    1 ≤ i ∧ p.bitmap i = false ∧ ∀ j, 1 ≤ j → j < i → p.bitmap j = true := by
  unfold pager_allocate_page at h
  by_cases hro : p.read_only
  · rw [if_pos hro] at h; exact absurd h (by simp)
  · rw [if_neg hro] at h
    rcases hf : find_free_page p.bitmap 1 (AMIDB_MAX_PAGES - 1) with _ | j
    · rw [hf] at h; exact absurd h (by simp)
    · rw [hf] at h
      simp only at h
      obtain ⟨h1, h2, h3⟩ := find_free_page_spec p.bitmap _ 1 j hf
      have : j = i := by simpa using h
      subst this
      exact ⟨h1, h2, h3⟩

/-- C7 (witness): the lowest-free-bit law evaluated on the first
allocation of a fresh database. -/
theorem C7_witness :
    1 ≤ 1 ∧ c7_pager.bitmap 1 = false
      ∧ ∀ j, 1 ≤ j → j < 1 → c7_pager.bitmap j = true :=
  C7_alloc_lowest_free c7_pager 1 rfl

/-! ## Claim C8: the magic check of pager_open -/

/-- A 64-byte file of `0xFF` bytes: non-empty, wrong magic. -/
def c8_contents : List Byte := List.replicate 64 0xFF

theorem serialize_header_length (h : FileHeader) :
    (serialize_header h).length = 64 := by
  simp only [serialize_header, put_u32, List.length_append, List.length_cons,
    List.length_nil, List.length_replicate]

theorem serialize_bitmap_length (bm : Bitmap) :
    (serialize_bitmap bm).length = 512 := by
  simp only [serialize_bitmap, List.length_map, List.length_range]

theorem header_page_bytes_length (h : FileHeader) (bm : Bitmap) :
    (header_page_bytes h bm).length = 4096 := by
  simp only [header_page_bytes, List.length_append, serialize_header_length,
    serialize_bitmap_length, List.length_replicate]

theorem file_write_bytes_apply_in (f : File) (off : Nat) (data : List Byte)
    (a : Nat) (h1 : off ≤ a) (h2 : a < off + data.length) :
    file_write_bytes f off data a = data.getD (a - off) 0 := by
  simp [file_write_bytes, h1, h2]

theorem file_write_bytes_apply_out (f : File) (off : Nat) (data : List Byte)
    (a : Nat) (h : a < off ∨ off + data.length ≤ a) :
    file_write_bytes f off data a = f a := by
  unfold file_write_bytes
  rw [if_neg (by omega)]

theorem header_page_bytes_getD_zero (h : FileHeader) (bm : Bitmap) :
    (header_page_bytes h bm).getD 0 0 = h.magic % 256 := by
  simp only [header_page_bytes, serialize_header, put_u32, List.cons_append,
    List.getD_cons_zero]

/-- The pager state `pager_open` builds for the 64-byte `0xFF` file in
writable mode (the file is treated as newly created). -/
def c8_pager : Pager :=
  let hdr := init_file_header
  let bm : Bitmap := bitmap_set (fun _ => false) 0
  let f0 : File := fun a => c8_contents.getD a 0
  let hdr2 : FileHeader := { hdr with flags := hdr.flags ||| DB_FLAG_DIRTY }
  { file := file_write_bytes (file_write_bytes f0 0 (header_page_bytes hdr bm))
              0 (header_page_bytes hdr2 bm)
    header := hdr2, bitmap := bm, read_only := false }

/-- C8 (counterexample): opening a non-empty file whose first 4 bytes are
not the magic succeeds in writable mode — `pager_open` treats the file as
newly created and REINITIALIZES it (byte 0 becomes the magic's low byte
`0x44` in place of the original `0xFF`), instead of rejecting it.  Only
read-only mode rejects. -/
theorem C8_counterexample :
    get_u32 c8_contents ≠ AMIDB_MAGIC
    ∧ pager_open false c8_contents = (0, some c8_pager)
    ∧ c8_pager.file 0 = 0x44
    ∧ c8_contents.getD 0 0 = 0xFF := by
  refine ⟨by decide, rfl, ?_, by decide⟩
  show c8_pager.file 0 = 0x44
  simp only [c8_pager]
  rw [file_write_bytes_apply_in _ _ _ _ (Nat.le_refl 0)
    (by rw [header_page_bytes_length]; omega)]
  rw [show (0 : Nat) - 0 = 0 from rfl, header_page_bytes_getD_zero]
  decide

/-- C8 (amended): `pager_open` rejects a file whose first 4 bytes do not
decode to the magic `0x416D6944` only in read-only mode; in writable
mode a readable (≥ 64 byte) file with a bad magic is treated as newly
created and the open succeeds, reinitializing the file. -/
theorem C8_open_magic (contents : List Byte)
    (hmag : get_u32 contents ≠ AMIDB_MAGIC) :
    (pager_open true contents).1 = -1
    ∧ (64 ≤ contents.length → (pager_open false contents).1 = 0) := by
  constructor
  · unfold pager_open
    simp only [eq_self_iff_true, if_true, Bool.false_eq_true, if_false]
    by_cases hlen : contents.length < AMIDB_PAGE_SIZE
    · rw [if_pos hlen]
    · rw [if_neg hlen]
      have hm : (deserialize_header (contents.take AMIDB_PAGE_SIZE)).magic
          = get_u32 contents := by
        show get_u32 (contents.take AMIDB_PAGE_SIZE) = get_u32 contents
        unfold get_u32
        have hps : AMIDB_PAGE_SIZE = 4096 := rfl
        have h4 : ∀ i, i < 4 →
            (contents.take AMIDB_PAGE_SIZE).getD i 0 = contents.getD i 0 := by
          intro i hi
          simp only [List.getD_eq_getElem?_getD]
          rw [List.getElem?_take_of_lt (by omega)]
        rw [h4 0 (by omega), h4 1 (by omega), h4 2 (by omega), h4 3 (by omega)]
      rw [if_pos (by rw [hm]; exact hmag)]
  · intro hlen
    unfold pager_open
    have hdec : decide (get_u32 contents ≠ AMIDB_MAGIC) = true := decide_eq_true hmag
    simp only [Bool.false_eq_true, if_false, if_pos hlen, hdec,
      eq_self_iff_true, if_true]

/-- C8 (witness): the amended open behavior evaluated on the 64-byte
`0xFF` file. -/
theorem C8_witness :
    (pager_open true c8_contents).1 = -1
    ∧ (64 ≤ c8_contents.length → (pager_open false c8_contents).1 = 0) :=
  C8_open_magic c8_contents (by decide)

/-! ## Claim C10: pager_free_page error cases -/

/-- C10: `pager_free_page` returns an error and leaves the pager — the
in-memory bitmap and the file, hence the on-disk header page — entirely
unchanged whenever the page number is 0, is at least `AMIDB_MAX_PAGES`,
or its bitmap bit is not set (double free included).  All three checks in
the source run before any mutation. -/
theorem C10_free_page_invalid (p : Pager) (page_num : Nat)
    (h : page_num = 0 ∨ AMIDB_MAX_PAGES ≤ page_num ∨ p.bitmap page_num = false) :
    pager_free_page p page_num = (-1, p) := by
  unfold pager_free_page
  rcases h with h | h | h
  · rw [if_pos (Or.inr (Or.inl h))]
  · rw [if_pos (Or.inr (Or.inr h))]
  · by_cases hg : p.read_only = true ∨ page_num = 0 ∨ AMIDB_MAX_PAGES ≤ page_num
    · rw [if_pos hg]
    · rw [if_neg hg]
      rw [if_pos (show bitmap_test p.bitmap page_num = false from h)]

/-- A fresh database after one allocation (page 1 in use), and the result
of freeing page 1 once. -/
def c10_pager : Pager := (pager_allocate_page c7_pager).2.1

def c10_free1 : Int × Pager := pager_free_page c10_pager 1

/-- C10 (witness): freeing page 0 fails and changes nothing; freeing the
allocated page 1 succeeds once, and the second free of the same page
(double free) fails and changes nothing. -/
theorem C10_witness :
    pager_free_page c7_pager 0 = (-1, c7_pager)
    ∧ c10_free1.1 = 0
    ∧ pager_free_page c10_free1.2 1 = (-1, c10_free1.2) :=
  ⟨C10_free_page_invalid c7_pager 0 (Or.inl rfl),
   by decide,
   C10_free_page_invalid c10_free1.2 1 (Or.inr (Or.inr (by decide)))⟩

/-! ## Buffer cache (src/storage/cache.c)

Cache entries are the fixed array of frames, in array order — the order
`find_entry` scans.  The LRU links only influence which frame an eviction
picks; none of the claims settled here performs an eviction, so the links
are not modelled. -/

def CACHE_ENTRY_INVALID : Nat := 0
def CACHE_ENTRY_CLEAN : Nat := 1
def CACHE_ENTRY_DIRTY : Nat := 2

structure CacheEntry where
  page_num : Nat
  cstate : Nat
  pin_count : Nat
  txn_id : Nat
  data : List Byte
deriving DecidableEq, Inhabited

structure Cache where
  entries : List CacheEntry
deriving DecidableEq

/-- Whether `find_entry`'s scan stops at this entry. -/
def cacheEntryMatches (e : CacheEntry) (page_num : Nat) : Bool :=
  e.cstate ≠ CACHE_ENTRY_INVALID ∧ e.page_num = page_num

/-- The scan of `find_entry` (src/storage/cache.c, lines 91-102): first
non-invalid entry with the given page number, in array order. -/
def cache_find_entry_aux (page_num : Nat) : List CacheEntry → Option Nat
  | [] => none
  | e :: rest =>
    if cacheEntryMatches e page_num then some 0
    else (cache_find_entry_aux page_num rest).map (· + 1)

/-- Function `cache_find_entry`, returning the entry's index. -/
def cache_find_entry (c : Cache) (page_num : Nat) : Option Nat :=
  cache_find_entry_aux page_num c.entries

/-- Function `cache_mark_dirty` (src/storage/cache.c, lines 273-287). -/
def cache_mark_dirty (c : Cache) (page_num : Nat) : Cache :=
  match cache_find_entry c page_num with
  | none => c
  | some i =>
    let e := c.entries.getD i default
    { entries := c.entries.set i { e with cstate := CACHE_ENTRY_DIRTY } }

/-- Function `cache_unpin` (src/storage/cache.c, lines 318-335). -/
def cache_unpin (c : Cache) (page_num : Nat) : Cache :=
  match cache_find_entry c page_num with
  | none => c
  | some i =>
    let e := c.entries.getD i default
    if 0 < e.pin_count then
      { entries := c.entries.set i { e with pin_count := e.pin_count - 1 } }
    else c

/-! ## Transaction manager (src/txn/txn.c) -/

def TXN_STATE_IDLE : Nat := 0
def TXN_STATE_ACTIVE : Nat := 1
def TXN_STATE_COMMITTING : Nat := 2
def TXN_STATE_ABORTING : Nat := 3
def TXN_STATE_COMMITTED : Nat := 4

structure TxnContext where
  tstate : Nat
  txn_id : Nat
  dirty_pages : List Nat
  pinned_pages : List Nat
  pages_logged : Nat
  commit_count : Nat
  abort_count : Nat
deriving DecidableEq

/-- Function `txn_create`. -/
def txn_create : TxnContext :=
  { tstate := TXN_STATE_IDLE, txn_id := 0, dirty_pages := [], pinned_pages := [],
    pages_logged := 0, commit_count := 0, abort_count := 0 }

/-- The combined state the transaction manager operates on. -/
structure DBState where
  pager : Pager
  cache : Cache
  wal : WalContext
  txn : TxnContext

/-- Function `txn_begin` (src/txn/txn.c, lines 64-91): legal only from
Idle (`AMIDB_BUSY` otherwise); allocates a txn id by pre-increment,
clears the lists, logs a BEGIN record. -/
def txn_begin (s : DBState) : Int × DBState :=
  if s.txn.tstate ≠ TXN_STATE_IDLE then (AMIDB_BUSY, s)
  else
    let wal1 := { s.wal with current_txn_id := s.wal.current_txn_id + 1 }
    let txn1 := { s.txn with
                    tstate := TXN_STATE_ACTIVE
                    txn_id := wal1.current_txn_id
                    dirty_pages := []
                    pinned_pages := [] }
    let res := wal_write_record wal1 WAL_BEGIN []
    if res.1 ≠ AMIDB_OK then
      (res.1, { s with wal := res.2, txn := { txn1 with tstate := TXN_STATE_IDLE } })
    else
      (AMIDB_OK, { s with wal := res.2, txn := txn1 })

/-- Function `txn_add_dirty_page` (src/txn/txn.c, lines 253-289):
de-duplicate against the dirty list (cap 64), then against the pinned
list (cap 64). -/
def txn_add_dirty_page (t : TxnContext) (page_num : Nat) : Int × TxnContext :=
  if t.dirty_pages.contains page_num then (AMIDB_OK, t)
  else if 64 ≤ t.dirty_pages.length then (AMIDB_FULL, t)
  else
    let t1 := { t with dirty_pages := t.dirty_pages ++ [page_num] }
    if t1.pinned_pages.contains page_num then (AMIDB_OK, t1)
    else if 64 ≤ t1.pinned_pages.length then (AMIDB_FULL, t1)
    else (AMIDB_OK, { t1 with pinned_pages := t1.pinned_pages ++ [page_num] })

/-- One iteration of `txn_abort`'s reload loop (src/txn/txn.c, lines
215-233): reload the page's on-disk image into its cache frame and mark
it clean; invalidate the frame if the read fails; clear the txn tag. -/
def txn_abort_reload (pg : Pager) (c : Cache) (page_num : Nat) : Cache :=
  match cache_find_entry c page_num with
  | none => c
  | some i =>
    let e := c.entries.getD i default
    let res := pager_read_page pg page_num
    if res.1 = AMIDB_OK then
      { entries := c.entries.set i
          { e with data := res.2, cstate := CACHE_ENTRY_CLEAN, txn_id := 0 } }
    else
      { entries := c.entries.set i
          { e with cstate := CACHE_ENTRY_INVALID, txn_id := 0 } }

/-- Function `txn_abort` (src/txn/txn.c, lines 201-248).  Note: the
source checks no state — abort runs (and returns `AMIDB_OK`) from any
state.  It reloads every dirty page from disk, unpins, clears the lists,
truncates the WAL buffer to the transaction's start offset, and moves to
Idle. -/
def txn_abort (s : DBState) : Int × DBState :=
  let c1 := s.txn.dirty_pages.foldl (txn_abort_reload s.pager) s.cache
  let c2 := s.txn.pinned_pages.foldl cache_unpin c1
  (AMIDB_OK,
    { s with
        cache := c2
        txn := { s.txn with
                   tstate := TXN_STATE_IDLE
                   dirty_pages := []
                   pinned_pages := []
                   abort_count := s.txn.abort_count + 1 }
        wal := { s.wal with buffer := s.wal.buffer.take s.wal.txn_start_offset } })

/-- Step 1 of `txn_commit` (src/txn/txn.c, lines 117-137): for each dirty
page with a dirty cache entry, log a PAGE record (4-byte page number plus
the frame's image). -/
def txn_commit_log_pages (c : Cache) :
    List Nat → WalContext → Nat → Int × WalContext × Nat
  | [], wal, logged => (AMIDB_OK, wal, logged)
  | p :: rest, wal, logged =>
    match cache_find_entry c p with
    | some i =>
      let e := c.entries.getD i default
      if e.cstate = CACHE_ENTRY_DIRTY then
        let res := wal_write_record wal WAL_PAGE (put_u32 p ++ e.data)
        if res.1 ≠ AMIDB_OK then (res.1, res.2, logged)
        else txn_commit_log_pages c rest res.2 (logged + 1)
      else txn_commit_log_pages c rest wal logged
    | none => txn_commit_log_pages c rest wal logged

/-- Step 4 of `txn_commit` (src/txn/txn.c, lines 158-176): eager
checkpoint; a failed page write is non-fatal and skipped. -/
def txn_checkpoint_pages : List Nat → Pager → Cache → Pager × Cache
  | [], pg, c => (pg, c)
  | p :: rest, pg, c =>
    match cache_find_entry c p with
    | some i =>
      let e := c.entries.getD i default
      let res := pager_write_page pg p e.data
      if res.1 ≠ AMIDB_OK then txn_checkpoint_pages rest pg c
      else
        let c' : Cache :=
          { entries := c.entries.set i { e with cstate := CACHE_ENTRY_CLEAN, txn_id := 0 } }
        txn_checkpoint_pages rest res.2 c'
    | none => txn_checkpoint_pages rest pg c

/-- Function `txn_commit` (src/txn/txn.c, lines 96-196): legal only from
Active (`AMIDB_ERROR` otherwise, before any side effect); log PAGE
records and COMMIT, flush the WAL (durability point), then eager
checkpoint, reset the WAL buffer, unpin, and return to Idle. -/
def txn_commit (s : DBState) : Int × DBState :=
  if s.txn.tstate ≠ TXN_STATE_ACTIVE then (AMIDB_ERROR, s)
  else
    let log := txn_commit_log_pages s.cache s.txn.dirty_pages s.wal s.txn.pages_logged
    let sA : DBState := { s with
                            wal := log.2.1
                            txn := { s.txn with
                                       tstate := TXN_STATE_COMMITTING
                                       pages_logged := log.2.2 } }
    if log.1 ≠ AMIDB_OK then (log.1, (txn_abort sA).2)
    else
      let res2 := wal_write_record sA.wal WAL_COMMIT []
      if res2.1 ≠ AMIDB_OK then (res2.1, (txn_abort { sA with wal := res2.2 }).2)
      else
        let fl := wal_flush res2.2 sA.pager
        if fl.1 ≠ AMIDB_OK then
          (fl.1, { sA with
                     wal := fl.2.1
                     pager := fl.2.2
                     txn := { sA.txn with tstate := TXN_STATE_IDLE } })
        else
          let cp := txn_checkpoint_pages sA.txn.dirty_pages fl.2.2 sA.cache
          let wal3 := wal_reset_buffer fl.2.1
          let c2 := sA.txn.pinned_pages.foldl cache_unpin cp.2
          (AMIDB_OK,
            { pager := cp.1, cache := c2, wal := wal3,
              txn := { sA.txn with
                         tstate := TXN_STATE_IDLE
                         dirty_pages := []
                         pinned_pages := []
                         commit_count := sA.txn.commit_count + 1 } })

/-- A page modification inside the active transaction, as the B+Tree
performs it (src/storage/btree.c, `btree_mark_page_dirty`, lines 56-75,
together with the caller's write into the pinned frame): overwrite the
cache frame's bytes, `cache_mark_dirty`, `txn_add_dirty_page`, and tag
the frame with the transaction id. -/
def txn_modify_page (s : DBState) (page_num : Nat) (newdata : List Byte) : DBState :=
  let c1 := match cache_find_entry s.cache page_num with
    | none => s.cache
    | some i =>
      let e := s.cache.entries.getD i default
      { entries := s.cache.entries.set i { e with data := newdata } }
  let c2 := cache_mark_dirty c1 page_num
  let t1 := (txn_add_dirty_page s.txn page_num).2
  let c3 := match cache_find_entry c2 page_num with
    | none => c2
    | some i =>
      let e := c2.entries.getD i default
      { entries := c2.entries.set i { e with txn_id := s.txn.txn_id } }
  { s with cache := c3, txn := t1 }

/-! ## Claim C6: the transaction state machine -/

def c6_idle_db : DBState :=
  { pager := c7_pager, cache := { entries := [] }, wal := wal_create,
    txn := txn_create }

def c6_committing_db : DBState :=
  { c6_idle_db with txn := { txn_create with tstate := TXN_STATE_COMMITTING } }

/-- C6 (counterexample): `txn_abort` checks no state at all.  Invoked on
an Idle transaction manager (no transaction active) it still runs,
returns `AMIDB_OK` and bumps `abort_count` — so the claim that commit AND
abort succeed only from the Active state, failing without side effects
otherwise, is false for abort. -/
theorem C6_counterexample :
    c6_idle_db.txn.tstate = TXN_STATE_IDLE
    ∧ (txn_abort c6_idle_db).1 = AMIDB_OK
    ∧ (txn_abort c6_idle_db).2.txn.abort_count = c6_idle_db.txn.abort_count + 1 :=
  ⟨rfl, rfl, rfl⟩

/-- C6 (amended): `txn_begin` succeeds only from Idle, returning
`AMIDB_BUSY` without side effects otherwise; `txn_commit` succeeds only
from Active, returning `AMIDB_ERROR` without side effects otherwise; but
`txn_abort` performs its rollback and returns `AMIDB_OK` from every
state. -/
theorem C6_txn_state_machine (s : DBState) :
    (s.txn.tstate ≠ TXN_STATE_IDLE → txn_begin s = (AMIDB_BUSY, s))
    ∧ (s.txn.tstate ≠ TXN_STATE_ACTIVE → txn_commit s = (AMIDB_ERROR, s))
    ∧ (txn_abort s).1 = AMIDB_OK := by
  refine ⟨fun h => ?_, fun h => ?_, rfl⟩
  · unfold txn_begin; rw [if_pos h]
  · unfold txn_commit; rw [if_pos h]

/-- C6 (witness): the state-machine guards evaluated in the Committing
state, which is neither Idle nor Active. -/
theorem C6_witness :
    txn_begin c6_committing_db = (AMIDB_BUSY, c6_committing_db)
    ∧ txn_commit c6_committing_db = (AMIDB_ERROR, c6_committing_db)
    ∧ (txn_abort c6_committing_db).1 = AMIDB_OK :=
  ⟨(C6_txn_state_machine c6_committing_db).1 (by decide),
   (C6_txn_state_machine c6_committing_db).2.1 (by decide),
   (C6_txn_state_machine c6_committing_db).2.2⟩

/-! ## Claim C3: abort restores the pre-transaction images

Supporting lemmas: `find_entry` is insensitive to entry updates that
preserve each entry's match status (page number and validity), which
covers every cache update `txn_abort` and the in-transaction page
modifications perform. -/

theorem list_getD_set_self {α : Type} [Inhabited α] :
    ∀ (l : List α) (i : Nat) (e : α), i < l.length →
      (l.set i e).getD i default = e := by
  intro l
  induction l with
  | nil => intro i e h; simp at h
  | cons a t ih =>
    intro i e h
    cases i with
    | zero => rfl
    | succ n => exact ih n e (by simpa using h)

theorem list_getD_set_ne {α : Type} [Inhabited α] :
    ∀ (l : List α) (i j : Nat) (e : α), j ≠ i →
      (l.set i e).getD j default = l.getD j default := by
  intro l
  induction l with
  | nil => intro i j e _; simp [List.set]
  | cons a t ih =>
    intro i j e hne
    cases i with
    | zero =>
      cases j with
      | zero => exact absurd rfl hne
      | succ m => rfl
    | succ n =>
      cases j with
      | zero => rfl
      | succ m => exact ih n m e (by omega)

theorem list_length_set {α : Type} (l : List α) (i : Nat) (e : α) :
    (l.set i e).length = l.length := by simp

/-- The specification of the `find_entry` scan: the returned index is in
range, its entry matches, and no earlier entry matches. -/
theorem cache_find_entry_aux_spec (page_num : Nat) :
    ∀ (l : List CacheEntry) (i : Nat), cache_find_entry_aux page_num l = some i →
      i < l.length ∧ cacheEntryMatches (l.getD i default) page_num = true
        ∧ ∀ j, j < i → cacheEntryMatches (l.getD j default) page_num = false := by
  intro l
  induction l with
  | nil => intro i h; exact absurd h (by simp [cache_find_entry_aux])
  | cons e t ih =>
    intro i h
    unfold cache_find_entry_aux at h
    by_cases hm : cacheEntryMatches e page_num = true
    · rw [if_pos hm] at h
      cases h
      exact ⟨by simp, hm, fun j hj => absurd hj (by omega)⟩
    · rw [if_neg hm] at h
      rcases hrec : cache_find_entry_aux page_num t with _ | k
      · rw [hrec] at h; exact absurd h (by simp)
      · rw [hrec] at h
        simp only [Option.map_some', Option.some.injEq] at h
        subst h
        obtain ⟨h1, h2, h3⟩ := ih k hrec
        refine ⟨by simpa using Nat.succ_lt_succ h1, h2, fun j hj => ?_⟩
        cases j with
        | zero => simpa using hm
        | succ m => exact h3 m (by omega)

/-- The `find_entry` scan only looks at each entry's match status, so two
entry arrays that agree pointwise on match status agree on the scan. -/
theorem cache_find_entry_aux_congr (page_num : Nat) :
    ∀ (l l' : List CacheEntry), l.length = l'.length →
      (∀ k, cacheEntryMatches (l.getD k default) page_num
            = cacheEntryMatches (l'.getD k default) page_num) →
      cache_find_entry_aux page_num l = cache_find_entry_aux page_num l' := by
  intro l
  induction l with
  | nil => intro l' hlen _; cases l' with
    | nil => rfl
    | cons b t => simp at hlen
  | cons a t ih =>
    intro l' hlen hmatch
    cases l' with
    | nil => simp at hlen
    | cons b t' =>
      have h0 := hmatch 0
      simp only [List.getD_cons_zero] at h0
      unfold cache_find_entry_aux
      rw [h0, ih t' (by simpa using hlen) (fun k => by simpa using hmatch (k + 1))]

theorem list_set_of_length_le {α : Type} :
    ∀ (l : List α) (i : Nat) (e : α), l.length ≤ i → l.set i e = l := by
  intro l
  induction l with
  | nil => intro i e _; rfl
  | cons a t ih =>
    intro i e h
    cases i with
    | zero => simp at h
    | succ n => simp only [List.set_cons_succ]; rw [ih n e (by simpa using h)]

/-- Replacing entry `i` by an entry with the same match status for `p`
does not change what `find_entry` returns for `p`. -/
theorem cache_find_set_eq (c : Cache) (i : Nat) (e' : CacheEntry) (p : Nat)
    (hmatch : cacheEntryMatches e' p = cacheEntryMatches (c.entries.getD i default) p) :
    cache_find_entry { entries := c.entries.set i e' } p = cache_find_entry c p := by
  show cache_find_entry_aux p (c.entries.set i e') = cache_find_entry_aux p c.entries
  by_cases hi : i < c.entries.length
  · apply cache_find_entry_aux_congr
    · simp
    · intro k
      by_cases hk : k = i
      · subst hk; rw [list_getD_set_self _ _ _ hi, hmatch]
      · rw [list_getD_set_ne _ _ _ _ hk]
  · rw [list_set_of_length_le _ _ _ (by omega)]

/-- Property claimed after an abort: the cache entry for `p` exists and
holds exactly the image `pager_read_page` returns for `p`, in the Clean
state. -/
def restoredProp (pg : Pager) (c : Cache) (p : Nat) : Prop :=
  ∃ i, cache_find_entry c p = some i
    ∧ (c.entries.getD i default).data = (pager_read_page pg p).2
    ∧ (c.entries.getD i default).cstate = CACHE_ENTRY_CLEAN

/-- Match status only depends on the page number and validity. -/
theorem cacheEntryMatches_congr (e e' : CacheEntry) (r : Nat)
    (hpage : e'.page_num = e.page_num)
    (hvalid : e'.cstate = CACHE_ENTRY_INVALID ↔ e.cstate = CACHE_ENTRY_INVALID) :
    cacheEntryMatches e' r = cacheEntryMatches e r := by
  unfold cacheEntryMatches
  rw [decide_eq_decide, hpage]
  constructor
  · intro h; exact ⟨fun hc => h.1 (hvalid.mpr hc), h.2⟩
  · intro h; exact ⟨fun hc => h.1 (hvalid.mp hc), h.2⟩

/-- An entry whose page number differs never matches. -/
theorem cacheEntryMatches_false_of_page_ne (e : CacheEntry) (r : Nat)
    (h : e.page_num ≠ r) : cacheEntryMatches e r = false := by
  unfold cacheEntryMatches
  simp [h]

/-- A reload whose disk read succeeds preserves every `find_entry`
result: the reloaded frame keeps its page number and stays valid. -/
theorem cache_find_reload_eq (pg : Pager) (c : Cache) (q : Nat)
    (hread : (pager_read_page pg q).1 = AMIDB_OK) (r : Nat) :
    cache_find_entry (txn_abort_reload pg c q) r = cache_find_entry c r := by
  unfold txn_abort_reload
  rcases hf : cache_find_entry c q with _ | j
  · rfl
  · obtain ⟨hj, hm, -⟩ := cache_find_entry_aux_spec q c.entries j hf
    simp only [hf, hread, if_pos]
    apply cache_find_set_eq
    have hvalid : (c.entries.getD j default).cstate ≠ CACHE_ENTRY_INVALID := by
      simp only [cacheEntryMatches, decide_eq_true_eq] at hm
      exact hm.1
    exact cacheEntryMatches_congr _ _ r rfl
      (iff_of_false ((by decide : ¬(CACHE_ENTRY_CLEAN = CACHE_ENTRY_INVALID))) hvalid)

/-- Reloading page `q` leaves the restored property of a different page
`p` intact: the updated frame belongs to `q`, so it never matches `p`,
whichever branch runs. -/
theorem restoredProp_reload_preserve (pg : Pager) (c : Cache) (p q : Nat)
    (hne : p ≠ q) (h : restoredProp pg c p) :
    restoredProp pg (txn_abort_reload pg c q) p := by
  obtain ⟨i, hfind, hdata, hstate⟩ := h
  obtain ⟨hi, hmi, -⟩ := cache_find_entry_aux_spec p c.entries i hfind
  unfold txn_abort_reload
  rcases hf : cache_find_entry c q with _ | j
  · exact ⟨i, hfind, hdata, hstate⟩
  · obtain ⟨hj, hmj, -⟩ := cache_find_entry_aux_spec q c.entries j hf
    have hqp : q ≠ p := fun hcontra => hne hcontra.symm
    have hpagej : (c.entries.getD j default).page_num = q := by
      simp only [cacheEntryMatches, decide_eq_true_eq] at hmj
      exact hmj.2
    have hij : i ≠ j := by
      intro hcontra
      have hpagei : (c.entries.getD i default).page_num = p := by
        simp only [cacheEntryMatches, decide_eq_true_eq] at hmi
        exact hmi.2
      rw [hcontra, hpagej] at hpagei
      exact hne hpagei.symm
    have hstable : ∀ (e' : CacheEntry), e'.page_num = q →
        cache_find_entry { entries := c.entries.set j e' } p
          = cache_find_entry c p := by
      intro e' hpage
      apply cache_find_set_eq
      rw [cacheEntryMatches_false_of_page_ne _ _ (by rw [hpage]; exact hqp),
        cacheEntryMatches_false_of_page_ne _ _ (by rw [hpagej]; exact hqp)]
    simp only [hf]
    split
    · refine ⟨i, ?_, ?_, ?_⟩
      · refine Eq.trans (hstable _ ?_) hfind; exact hpagej
      · rw [list_getD_set_ne _ _ _ _ hij]; exact hdata
      · rw [list_getD_set_ne _ _ _ _ hij]; exact hstate
    · refine ⟨i, ?_, ?_, ?_⟩
      · refine Eq.trans (hstable _ ?_) hfind; exact hpagej
      · rw [list_getD_set_ne _ _ _ _ hij]; exact hdata
      · rw [list_getD_set_ne _ _ _ _ hij]; exact hstate

/-- Reloading page `p` with a successful disk read establishes the
restored property for `p`. -/
theorem txn_abort_reload_establishes (pg : Pager) (c : Cache) (p : Nat)
    (hread : (pager_read_page pg p).1 = AMIDB_OK)
    (hfind : (cache_find_entry c p).isSome = true) :
    restoredProp pg (txn_abort_reload pg c p) p := by
  rcases hf : cache_find_entry c p with _ | i
  · rw [hf] at hfind; simp at hfind
  · obtain ⟨hi, hm, -⟩ := cache_find_entry_aux_spec p c.entries i hf
    have hvalid : (c.entries.getD i default).cstate ≠ CACHE_ENTRY_INVALID := by
      simp only [cacheEntryMatches, decide_eq_true_eq] at hm
      exact hm.1
    unfold txn_abort_reload
    simp only [hf, hread, if_pos]
    refine ⟨i, ?_, ?_, ?_⟩
    · rw [cache_find_set_eq]
      · exact hf
      · exact cacheEntryMatches_congr _ _ p rfl
          (iff_of_false ((by decide : ¬(CACHE_ENTRY_CLEAN = CACHE_ENTRY_INVALID))) hvalid)
    · rw [list_getD_set_self _ _ _ hi]
    · rw [list_getD_set_self _ _ _ hi]

/-- Unpinning any page preserves the restored property: only the pin
count changes. -/
theorem restoredProp_unpin_preserve (pg : Pager) (c : Cache) (p r : Nat)
    (h : restoredProp pg c p) : restoredProp pg (cache_unpin c r) p := by
  obtain ⟨i, hfind, hdata, hstate⟩ := h
  unfold cache_unpin
  rcases hf : cache_find_entry c r with _ | j
  · exact ⟨i, hfind, hdata, hstate⟩
  · simp only [hf]
    split
    · have hstable :
          cache_find_entry
            ({ entries := c.entries.set j
                ({ c.entries.getD j default with
                    pin_count := (c.entries.getD j default).pin_count - 1 }) } : Cache) p
            = cache_find_entry c p := by
        apply cache_find_set_eq
        exact cacheEntryMatches_congr _ _ p rfl Iff.rfl
      by_cases hij : i = j
      · subst hij
        obtain ⟨hi, -, -⟩ := cache_find_entry_aux_spec p c.entries i hfind
        refine ⟨i, ?_, ?_, ?_⟩
        · rw [hstable]; exact hfind
        · rw [list_getD_set_self _ _ _ hi]; exact hdata
        · rw [list_getD_set_self _ _ _ hi]; exact hstate
      · refine ⟨i, ?_, ?_, ?_⟩
        · rw [hstable]; exact hfind
        · rw [list_getD_set_ne _ _ _ _ hij]; exact hdata
        · rw [list_getD_set_ne _ _ _ _ hij]; exact hstate
    · exact ⟨i, hfind, hdata, hstate⟩

theorem restoredProp_reload_foldl (pg : Pager) (qs : List Nat) :
    ∀ (c : Cache) (p : Nat), restoredProp pg c p →
      (pager_read_page pg p).1 = AMIDB_OK →
      restoredProp pg (qs.foldl (txn_abort_reload pg) c) p := by
  induction qs with
  | nil => intro c p h _; exact h
  | cons q rest ih =>
    intro c p h hread
    rw [List.foldl_cons]
    refine ih _ p ?_ hread
    by_cases hpq : p = q
    · subst hpq
      obtain ⟨i, hfind, -, -⟩ := h
      exact txn_abort_reload_establishes pg c p hread (by rw [hfind]; rfl)
    · exact restoredProp_reload_preserve pg c p q hpq h

theorem restoredProp_unpin_foldl (pg : Pager) (rs : List Nat) :
    ∀ (c : Cache) (p : Nat), restoredProp pg c p →
      restoredProp pg (rs.foldl cache_unpin c) p := by
  induction rs with
  | nil => intro c p h; exact h
  | cons r rest ih =>
    intro c p h
    rw [List.foldl_cons]
    exact ih _ p (restoredProp_unpin_preserve pg c p r h)

/-- The whole reload pass establishes the restored property for every
page of the dirty list, provided each of those pages reads back from
disk and has a cache entry. -/
theorem abort_fold_restores (pg : Pager) :
    ∀ (ps : List Nat) (c : Cache),
      (∀ p ∈ ps, (pager_read_page pg p).1 = AMIDB_OK) →
      (∀ p ∈ ps, (cache_find_entry c p).isSome = true) →
      ∀ p ∈ ps, restoredProp pg (ps.foldl (txn_abort_reload pg) c) p := by
  intro ps
  induction ps with
  | nil => intro c _ _ p hp; simp at hp
  | cons q rest ih =>
    intro c hread hentry p hp
    rw [List.foldl_cons]
    rcases List.mem_cons.mp hp with rfl | hp'
    · have h1 := txn_abort_reload_establishes pg c p
        (hread p (List.mem_cons_self _ _)) (hentry p (List.mem_cons_self _ _))
      exact restoredProp_reload_foldl pg rest _ p h1 (hread p (List.mem_cons_self _ _))
    · refine ih _ (fun r hr => hread r (List.mem_cons_of_mem _ hr)) ?_ p hp'
      intro r hr
      rw [cache_find_reload_eq pg c q (hread q (List.mem_cons_self _ _)) r]
      exact hentry r (List.mem_cons_of_mem _ hr)

/-- The in-transaction modification sequences the claim quantifies over:
any number of `txn_modify_page` steps after the state `s0` at which the
transaction became Active. -/
inductive TxnMods : DBState → DBState → Prop
  | refl (s : DBState) : TxnMods s s
  | step (s s' : DBState) (page_num : Nat) (data : List Byte) :
      TxnMods s s' → TxnMods s (txn_modify_page s' page_num data)

/-- Page modifications inside a transaction never touch the pager (the
disk): they only update the cache and the dirty/pinned lists. -/
theorem TxnMods.pager_eq {s0 s : DBState} (h : TxnMods s0 s) :
    s.pager = s0.pager := by
  induction h with
  | refl => rfl
  | step s' pn d _ ih => exact ih

/-- C3: for a transaction made Active at `s0` and advanced by any
sequence of in-transaction page modifications to `s`, after `txn_abort`
every page in the dirty list reads back through the cache equal to its
pre-transaction image — the image `pager_read_page` returned at `s0`
(modifications never write the disk, so the on-disk image at abort time
is the pre-transaction image).  The hypotheses are the reachability
facts: each dirtied page is a valid on-disk page (it was written through
`pager_write_page`, so its read succeeds) and occupies a cache frame. -/
theorem C3_abort_restores (s0 s : DBState) (hmods : TxnMods s0 s)
    (hread : ∀ p ∈ s.txn.dirty_pages, (pager_read_page s0.pager p).1 = AMIDB_OK)
    (hentry : ∀ p ∈ s.txn.dirty_pages, (cache_find_entry s.cache p).isSome = true) :
    ∀ p ∈ s.txn.dirty_pages, restoredProp s0.pager (txn_abort s).2.cache p := by
  have hpg : s.pager = s0.pager := hmods.pager_eq
  intro p hp
  have h1 : restoredProp s0.pager
      (s.txn.dirty_pages.foldl (txn_abort_reload s0.pager) s.cache) p :=
    abort_fold_restores s0.pager s.txn.dirty_pages s.cache hread hentry p hp
  have h2 : (txn_abort s).2.cache
      = s.txn.pinned_pages.foldl cache_unpin
          (s.txn.dirty_pages.foldl (txn_abort_reload s.pager) s.cache) := rfl
  rw [h2, hpg]
  exact restoredProp_unpin_foldl s0.pager s.txn.pinned_pages _ p h1

/-! ### Pager write/read round trip

Pages written by `pager_write_page` read back verified: the stamped page
number and checksum match what `pager_read_page` recomputes. -/

theorem file_read_bytes_length (f : File) (off len : Nat) :
    (file_read_bytes f off len).length = len := by
  simp [file_read_bytes]

theorem file_read_write_same (f : File) (off : Nat) (data : List Byte) :
    file_read_bytes (file_write_bytes f off data) off data.length = data := by
  apply List.ext_getElem
  · simp [file_read_bytes]
  · intro i h1 h2
    simp only [file_read_bytes, List.getElem_map, List.getElem_range]
    rw [file_write_bytes_apply_in f off data (off + i) (by omega) (by omega)]
    rw [show off + i - off = i by omega]
    exact List.getD_eq_getElem data 0 h2

theorem stamp_page_length (n : Nat) (d : List Byte) (hd : d.length = 4096) :
    (stamp_page n d).length = 4096 := by
  simp only [stamp_page, put_u32, List.length_append, List.length_cons,
    List.length_nil, List.length_take, List.length_drop, hd]
  omega

theorem stamp_page_prefix8_length (n : Nat) (d : List Byte) (hd : d.length = 4096) :
    (put_u32 n ++ (d.drop 4).take 4).length = 8 := by
  simp only [put_u32, List.length_append, List.length_cons, List.length_nil,
    List.length_take, List.length_drop, hd]
  omega

theorem stamp_page_drop8 (n : Nat) (d : List Byte) (hd : d.length = 4096) :
    (stamp_page n d).drop 8
      = put_u32 (crc32_compute ((d.drop 12).take 4084)) ++ (d.drop 12).take 4084 := by
  unfold stamp_page
  rw [List.append_assoc (put_u32 n ++ (d.drop 4).take 4)]
  exact List.drop_left' (stamp_page_prefix8_length n d hd)

theorem stamp_page_drop12 (n : Nat) (d : List Byte) (hd : d.length = 4096) :
    (stamp_page n d).drop 12 = (d.drop 12).take 4084 := by
  have h8 := stamp_page_drop8 n d hd
  have : (stamp_page n d).drop 12 = ((stamp_page n d).drop 8).drop 4 := by
    rw [List.drop_drop]
  rw [this, h8]
  rw [List.drop_left' (by simp [put_u32])]

theorem stamp_page_page_num (n : Nat) (d : List Byte) (hn : n < 4294967296) :
    get_u32 (stamp_page n d) = n := by
  unfold stamp_page get_u32 put_u32
  simp only [List.cons_append, List.getD_cons_zero, List.getD_cons_succ]
  omega

theorem stamp_page_checksum (n : Nat) (d : List Byte) (hd : d.length = 4096) :
    get_u32 ((stamp_page n d).drop 8) = crc32_compute ((d.drop 12).take 4084) := by
  rw [stamp_page_drop8 n d hd]
  unfold get_u32 put_u32
  simp only [List.cons_append, List.getD_cons_zero, List.getD_cons_succ]
  have := @crc32_update_lt 0 ((d.drop 12).take 4084) (by norm_num)
  unfold crc32_compute
  omega

/-- Writing a 4096-byte buffer and reading the same page back succeeds
and returns the stamped image (spec §8's pager round-trip law). -/
theorem pager_write_read (p : Pager) (n : Nat) (d : List Byte)
    (hro : p.read_only = false) (hn : n < AMIDB_MAX_PAGES)
    (hd : d.length = 4096) (hpc : n < p.header.page_count) :
    pager_read_page (pager_write_page p n d).2 n = (0, stamp_page n d) := by
  unfold pager_write_page
  rw [if_neg (not_or.mpr ⟨by simp [hro], by omega⟩)]
  unfold pager_read_page
  simp only
  rw [if_neg (Nat.not_le.mpr hpc)]
  have hdata : file_read_bytes
      (file_write_bytes p.file (n * AMIDB_PAGE_SIZE) (stamp_page n d))
      (n * AMIDB_PAGE_SIZE) AMIDB_PAGE_SIZE = stamp_page n d := by
    have h1 : AMIDB_PAGE_SIZE = (stamp_page n d).length := (stamp_page_length n d hd).symm
    rw [h1, file_read_write_same]
  rw [hdata]
  have hn32 : n < 4294967296 := by
    have : AMIDB_MAX_PAGES = 4096 := rfl
    omega
  rw [if_neg (by rw [stamp_page_page_num n d hn32]; exact not_not_intro rfl)]
  rw [if_neg (by
    rw [stamp_page_checksum n d hd, stamp_page_drop12 n d hd]
    exact not_not_intro rfl)]

/-! ### Claim C3 witness scenario -/

def c3_data : List Byte := List.replicate 4096 0

def c3_pager0 : Pager :=
  { file := fun _ => 0, header := { init_file_header with page_count := 2 },
    bitmap := bitmap_set fresh_bitmap 1, read_only := false }

/-- The disk after page 1 was written (in an earlier committed step). -/
def c3_pager : Pager := (pager_write_page c3_pager0 1 c3_data).2

def c3_entry : CacheEntry :=
  { page_num := 1, cstate := CACHE_ENTRY_CLEAN, pin_count := 1, txn_id := 0,
    data := stamp_page 1 c3_data }

/-- The state right after `txn_begin`: page 1 clean in the cache, equal
to its on-disk image. -/
def c3_db0 : DBState :=
  { pager := c3_pager, cache := { entries := [c3_entry] },
    wal := { wal_create with current_txn_id := 1 },
    txn := { txn_create with tstate := TXN_STATE_ACTIVE, txn_id := 1 } }

/-- The state after the transaction overwrote page 1 in the cache. -/
def c3_db1 : DBState := txn_modify_page c3_db0 1 (List.replicate 4096 7)

/-- C3 (witness): one transaction that modifies page 1 and aborts; the
abort restores the pre-transaction image for every dirty page. -/
theorem C3_witness :
    (∀ p ∈ c3_db1.txn.dirty_pages, (pager_read_page c3_db0.pager p).1 = AMIDB_OK)
    ∧ ∀ p ∈ c3_db1.txn.dirty_pages,
        restoredProp c3_db0.pager (txn_abort c3_db1).2.cache p := by
  have hdirty : c3_db1.txn.dirty_pages = [1] := rfl
  have hread : ∀ p ∈ c3_db1.txn.dirty_pages,
      (pager_read_page c3_db0.pager p).1 = AMIDB_OK := by
    intro p hp
    rw [hdirty] at hp
    have hp1 : p = 1 := by simpa using hp
    subst hp1
    show (pager_read_page c3_pager 1).1 = AMIDB_OK
    rw [show c3_pager = (pager_write_page c3_pager0 1 c3_data).2 from rfl]
    rw [pager_write_read c3_pager0 1 c3_data rfl (by decide)
      (by rw [show c3_data = List.replicate 4096 0 from rfl, List.length_replicate])
      (by decide)]
    rfl
  have hentry : ∀ p ∈ c3_db1.txn.dirty_pages,
      (cache_find_entry c3_db1.cache p).isSome = true := by
    intro p hp
    rw [hdirty] at hp
    have hp1 : p = 1 := by simpa using hp
    subst hp1
    rfl
  exact ⟨hread, C3_abort_restores c3_db0 c3_db1
    (TxnMods.step c3_db0 c3_db0 1 (List.replicate 4096 7) (TxnMods.refl c3_db0))
    hread hentry⟩

/-! ## Row codec (src/storage/row.c)

A row is the list of its `column_count` values.  Text and blob bytes are
kept verbatim; the integer value is the C `int32_t`. -/

def AMIDB_TYPE_NULL : Nat := 0
def AMIDB_TYPE_INTEGER : Nat := 1
def AMIDB_TYPE_TEXT : Nat := 2
def AMIDB_TYPE_BLOB : Nat := 3
def AMIDB_MAX_COLUMNS : Nat := 32

inductive RowValue
  | vnull
  | vint (i : Int)
  | vtext (data : List Byte)
  | vblob (data : List Byte)
deriving DecidableEq

abbrev Row := List RowValue

/-- Per-column contribution of `row_get_serialized_size` (src/storage/row.c,
lines 239-277): 1 type byte plus 0/4/(4+size) bytes. -/
def value_size : RowValue → Nat
  | .vnull => 1
  | .vint _ => 5
  | .vtext d => 5 + d.length
  | .vblob d => 5 + d.length

/-- Function `row_get_serialized_size`. -/
def row_get_serialized_size (r : Row) : Nat :=
  2 + (r.map value_size).sum

/-- Per-column bytes of `row_serialize` (src/storage/row.c, lines
300-333): type byte, then the value's encoding. -/
def serialize_value : RowValue → List Byte
  | .vnull => [AMIDB_TYPE_NULL]
  | .vint i => AMIDB_TYPE_INTEGER :: put_i32 i
  | .vtext d => AMIDB_TYPE_TEXT :: (put_u32 d.length ++ d)
  | .vblob d => AMIDB_TYPE_BLOB :: (put_u32 d.length ++ d)

/-- The bytes `row_serialize` writes: `u16 LE column_count`, then each
column in order. -/
def row_serialize_bytes (r : Row) : List Byte :=
  put_u16 r.length ++ (r.map serialize_value).flatten

/-- Function `row_serialize` with its buffer-size gate (src/storage/row.c,
lines 282-336): fails if the buffer is smaller than the serialized size,
otherwise returns the byte count written. -/
def row_serialize (r : Row) (buffer_size : Nat) : Int × List Byte :=
  if buffer_size < row_get_serialized_size r then (-1, [])
  else (((row_serialize_bytes r).length : Int), row_serialize_bytes r)

/-- The C `strlen` scan `row_set_text` performs when it is handed length
0 (src/storage/row.c, lines 113-120): count bytes up to the first NUL.
`none` models the scan running past the modelled buffer (an
out-of-bounds read in the C). -/
def cStrLen : List Byte → Option Nat
  | [] => none
  | b :: rest => if b = 0 then some 0 else (cStrLen rest).map (· + 1)

/-- The column loop of `row_deserialize` (src/storage/row.c, lines
364-432), processing `count` remaining columns at `offset`.  The TEXT
case mirrors `row_set_text`: a zero stored size makes it recompute the
length with `strlen` and copy that many bytes, while the loop still
advances the offset by the stored size. -/
def row_deserialize_cols (buffer : List Byte) :
    Nat → Nat → Row → Int × Row
  | 0, offset, acc => ((offset : Int), acc)
  | count + 1, offset, acc =>
    if buffer.length ≤ offset then (-1, [])
    else
      let type := buffer.getD offset 0
      let offset1 := offset + 1
      if type = AMIDB_TYPE_NULL then
        row_deserialize_cols buffer count offset1 (acc ++ [.vnull])
      else if type = AMIDB_TYPE_INTEGER then
        if buffer.length < offset1 + 4 then (-1, [])
        else
          row_deserialize_cols buffer count (offset1 + 4)
            (acc ++ [.vint (get_i32 (buffer.drop offset1))])
      else if type = AMIDB_TYPE_TEXT ∨ type = AMIDB_TYPE_BLOB then
        if buffer.length < offset1 + 4 then (-1, [])
        else
          let size := get_u32 (buffer.drop offset1)
          let offset2 := offset1 + 4
          if buffer.length < offset2 + size then (-1, [])
          else if type = AMIDB_TYPE_TEXT then
            match (if size = 0 then cStrLen (buffer.drop offset2) else some size) with
            | none => (-1, [])
            | some len =>
              row_deserialize_cols buffer count (offset2 + size)
                (acc ++ [.vtext ((buffer.drop offset2).take len)])
          else
            row_deserialize_cols buffer count (offset2 + size)
              (acc ++ [.vblob ((buffer.drop offset2).take size)])
      else (-1, [])

/-- Function `row_deserialize` (src/storage/row.c, lines 341-435).  A
failure clears the row (modelled as the empty row with return `-1`). -/
def row_deserialize (buffer : List Byte) : Int × Row :=
  if buffer.length < 2 then (-1, [])
  else
    let column_count := get_u16 buffer
    if AMIDB_MAX_COLUMNS < column_count then (-1, [])
    else row_deserialize_cols buffer column_count 2 []

/-- Values representable by the C row: `int32_t` integers and
`uint32_t`-sized text/blob payloads. -/
def validValue : RowValue → Prop
  | .vnull => True
  | .vint i => -2147483648 ≤ i ∧ i < 2147483648
  | .vtext d => d.length < 4294967296
  | .vblob d => d.length < 4294967296

def ValidRow (r : Row) : Prop :=
  r.length ≤ AMIDB_MAX_COLUMNS ∧ ∀ v ∈ r, validValue v

/-- No column is an empty TEXT value (empty BLOBs are fine). -/
def noEmptyTextV : RowValue → Prop
  | .vtext d => d ≠ []
  | _ => True

def RowNoEmptyText (r : Row) : Prop := ∀ v ∈ r, noEmptyTextV v

instance decValidValue (v : RowValue) : Decidable (validValue v) := by
  cases v <;> simp only [validValue] <;> infer_instance

instance decNoEmptyTextV (v : RowValue) : Decidable (noEmptyTextV v) := by
  cases v <;> simp only [noEmptyTextV] <;> infer_instance

instance decValidRow (r : Row) : Decidable (ValidRow r) := by
  unfold ValidRow; infer_instance

instance decRowNoEmptyText (r : Row) : Decidable (RowNoEmptyText r) := by
  unfold RowNoEmptyText; infer_instance

/-- The row that breaks the round trip: an empty TEXT column followed by
an integer column. -/
def c5_row : Row := [.vtext [], .vint 5]

/-- C5 (counterexample): deserializing the serialization of the row
`[text "", int 5]` does NOT reconstruct the row.  The stored TEXT size
is 0, which makes `row_set_text` recompute the length with `strlen` on
the following buffer bytes (the next column's type and value bytes), so
the empty text comes back as the two bytes `[0x01, 0x05]`. -/
theorem C5_counterexample :
    row_deserialize (row_serialize_bytes c5_row)
      = (12, [.vtext [0x01, 0x05], .vint 5])
    ∧ row_deserialize (row_serialize_bytes c5_row)
      ≠ ((row_get_serialized_size c5_row : Int), c5_row) := by
  constructor
  · rfl
  · decide

theorem serialize_value_length (v : RowValue) :
    (serialize_value v).length = value_size v := by
  cases v <;> simp [serialize_value, value_size, put_u32, put_i32] <;> omega

theorem list_getD_append_right {α : Type} (pre X : List α) (k : Nat) (d : α) :
    (pre ++ X).getD (pre.length + k) d = X.getD k d := by
  induction pre with
  | nil => simp
  | cons a t ih =>
    rw [List.cons_append, show (a :: t).length + k = (t.length + k) + 1 by
      simp [List.length_cons]; omega]
    rw [List.getD_cons_succ]
    exact ih

theorem get_u16_put_u16 (v : Nat) (rest : List Byte) :
    get_u16 (put_u16 v ++ rest) = v % 65536 := by
  simp only [get_u16, put_u16, List.cons_append, List.getD_cons_zero,
    List.getD_cons_succ]
  omega

theorem get_u32_put_u32 (v : Nat) (rest : List Byte) :
    get_u32 (put_u32 v ++ rest) = v % 4294967296 := by
  simp only [get_u32, put_u32, List.cons_append, List.getD_cons_zero,
    List.getD_cons_succ]
  omega

theorem get_i32_put_i32 (i : Int) (rest : List Byte)
    (h1 : -2147483648 ≤ i) (h2 : i < 2147483648) :
    get_i32 (put_i32 i ++ rest) = i := by
  unfold get_i32 put_i32
  rw [get_u32_put_u32]
  have hlt : ofI32 i < 4294967296 := by unfold ofI32; omega
  rw [Nat.mod_eq_of_lt hlt]
  unfold toI32 ofI32
  split <;> omega

/-- The column loop inverts the column serialization, for valid columns
with no empty TEXT value, whatever bytes precede the columns and
whatever row was accumulated so far. -/
theorem row_deserialize_cols_spec :
    ∀ (cols : Row) (pre : List Byte) (acc : Row),
      (∀ v ∈ cols, validValue v) → (∀ v ∈ cols, noEmptyTextV v) →
      row_deserialize_cols (pre ++ (cols.map serialize_value).flatten)
          cols.length pre.length acc
        = (((pre.length + (cols.map value_size).sum : Nat) : Int), acc ++ cols) := by
  intro cols
  induction cols with
  | nil => intro pre acc _ _; simp [row_deserialize_cols]
  | cons v rest ih =>
    intro pre acc hval hnet
    have hvalv := hval v (List.mem_cons_self _ _)
    have hnetv := hnet v (List.mem_cons_self _ _)
    have hvalr := fun w hw => hval w (List.mem_cons_of_mem _ hw)
    have hnetr := fun w hw => hnet w (List.mem_cons_of_mem _ hw)
    simp only [List.map_cons, List.flatten_cons, List.length_cons,
      List.sum_cons]
    have hmain : ∀ (tag : Byte) (body : List Byte),
        serialize_value v = tag :: body →
        pre ++ (serialize_value v ++ (rest.map serialize_value).flatten)
          = (pre ++ [tag]) ++ (body ++ (rest.map serialize_value).flatten) := by
      intro tag body hsv
      rw [hsv]; simp
    have hrec : ∀ (newacc : Row),
        row_deserialize_cols
            (pre ++ (serialize_value v ++ (rest.map serialize_value).flatten))
            rest.length (pre.length + value_size v) newacc
          = (((pre.length + value_size v + (rest.map value_size).sum : Nat) : Int),
              newacc ++ rest) := by
      intro newacc
      have hassoc :
          pre ++ (serialize_value v ++ (rest.map serialize_value).flatten)
            = (pre ++ serialize_value v) ++ (rest.map serialize_value).flatten := by
        simp
      have hlen : pre.length + value_size v = (pre ++ serialize_value v).length := by
        simp [serialize_value_length]
      rw [hassoc, hlen]
      exact ih (pre ++ serialize_value v) newacc hvalr hnetr
    have hbuflen :
        (pre ++ (serialize_value v ++ (rest.map serialize_value).flatten)).length
          = pre.length + value_size v + (rest.map serialize_value).flatten.length := by
      simp [serialize_value_length]
      omega
    have htype : ∀ (tag : Byte) (body : List Byte),
        serialize_value v = tag :: body →
        (pre ++ (serialize_value v ++ (rest.map serialize_value).flatten)).getD
            pre.length 0 = tag := by
      intro tag body hsv
      rw [hsv, List.cons_append,
        show pre.length = pre.length + 0 by omega,
        list_getD_append_right]
      rfl
    have hdrop1 : ∀ (tag : Byte) (body : List Byte),
        serialize_value v = tag :: body →
        (pre ++ (serialize_value v ++ (rest.map serialize_value).flatten)).drop
            (pre.length + 1)
          = body ++ (rest.map serialize_value).flatten := by
      intro tag body hsv
      rw [hmain tag body hsv, List.drop_left' (by simp)]
    cases v with
    | vnull =>
      have hsv : serialize_value .vnull = AMIDB_TYPE_NULL :: [] := rfl
      simp only [row_deserialize_cols]
      rw [if_neg (by rw [hbuflen]; simp [value_size]; omega)]
      rw [htype _ _ hsv]
      rw [if_pos rfl]
      have hthis := hrec (acc ++ [.vnull])
      simp only [value_size] at hthis ⊢
      rw [hthis]
      simp [Nat.add_assoc]
    | vint i =>
      have hsv : serialize_value (.vint i) = AMIDB_TYPE_INTEGER :: put_i32 i := rfl
      simp only [row_deserialize_cols]
      rw [if_neg (by rw [hbuflen]; simp [value_size]; omega)]
      rw [htype _ _ hsv]
      rw [if_neg (by decide), if_pos rfl]
      rw [if_neg (by rw [hbuflen]; simp only [value_size]; omega)]
      rw [hdrop1 _ _ hsv]
      obtain ⟨hi1, hi2⟩ := hvalv
      rw [get_i32_put_i32 i _ hi1 hi2]
      have hthis := hrec (acc ++ [.vint i])
      simp only [value_size] at hthis ⊢
      rw [show pre.length + 1 + 4 = pre.length + 5 by omega, hthis]
      simp [Nat.add_assoc]
    | vtext d =>
      have hsv : serialize_value (.vtext d)
          = AMIDB_TYPE_TEXT :: (put_u32 d.length ++ d) := rfl
      have hdlen : d.length < 4294967296 := hvalv
      have hdne : d ≠ [] := hnetv
      have hdpos : 0 < d.length := List.length_pos.mpr hdne
      simp only [row_deserialize_cols]
      rw [if_neg (by rw [hbuflen]; simp [value_size]; omega)]
      rw [htype _ _ hsv]
      rw [if_neg (by decide), if_neg (by decide), if_pos (Or.inl rfl)]
      rw [if_neg (by rw [hbuflen]; simp [value_size]; omega)]
      rw [hdrop1 _ _ hsv]
      rw [List.append_assoc, get_u32_put_u32, Nat.mod_eq_of_lt hdlen]
      rw [if_neg (by rw [hbuflen]; simp [value_size]; omega)]
      rw [if_pos rfl]
      rw [if_neg (by omega)]
      have hdrop5 :
          (pre ++ (serialize_value (.vtext d) ++ (rest.map serialize_value).flatten)).drop
              (pre.length + 1 + 4)
            = d ++ (rest.map serialize_value).flatten := by
        rw [hsv]
        rw [show pre ++ ((AMIDB_TYPE_TEXT :: (put_u32 d.length ++ d))
              ++ (rest.map serialize_value).flatten)
            = (pre ++ (AMIDB_TYPE_TEXT :: put_u32 d.length))
              ++ (d ++ (rest.map serialize_value).flatten) by simp]
        rw [List.drop_left' (by simp [put_u32])]
      rw [hdrop5]
      show row_deserialize_cols _ rest.length (pre.length + 1 + 4 + d.length)
          (acc ++ [RowValue.vtext
            (List.take d.length (d ++ (rest.map serialize_value).flatten))]) = _
      rw [List.take_left' rfl]
      have hthis := hrec (acc ++ [.vtext d])
      simp only [value_size] at hthis ⊢
      rw [show pre.length + 1 + 4 + d.length = pre.length + (5 + d.length) by omega,
        hthis]
      simp [Nat.add_assoc]
    | vblob d =>
      have hsv : serialize_value (.vblob d)
          = AMIDB_TYPE_BLOB :: (put_u32 d.length ++ d) := rfl
      have hdlen : d.length < 4294967296 := hvalv
      simp only [row_deserialize_cols]
      rw [if_neg (by rw [hbuflen]; simp [value_size]; omega)]
      rw [htype _ _ hsv]
      rw [if_neg (by decide), if_neg (by decide), if_pos (Or.inr rfl)]
      rw [if_neg (by rw [hbuflen]; simp [value_size]; omega)]
      rw [hdrop1 _ _ hsv]
      rw [List.append_assoc, get_u32_put_u32, Nat.mod_eq_of_lt hdlen]
      rw [if_neg (by rw [hbuflen]; simp [value_size]; omega)]
      rw [if_neg (by decide)]
      have hdrop5 :
          (pre ++ (serialize_value (.vblob d) ++ (rest.map serialize_value).flatten)).drop
              (pre.length + 1 + 4)
            = d ++ (rest.map serialize_value).flatten := by
        rw [hsv]
        rw [show pre ++ ((AMIDB_TYPE_BLOB :: (put_u32 d.length ++ d))
              ++ (rest.map serialize_value).flatten)
            = (pre ++ (AMIDB_TYPE_BLOB :: put_u32 d.length))
              ++ (d ++ (rest.map serialize_value).flatten) by simp]
        rw [List.drop_left' (by simp [put_u32])]
      rw [hdrop5, List.take_left' rfl]
      have hthis := hrec (acc ++ [.vblob d])
      simp only [value_size] at hthis ⊢
      rw [show pre.length + 1 + 4 + d.length = pre.length + (5 + d.length) by omega,
        hthis]
      simp [Nat.add_assoc]

/-- C5 (amended): for every valid row (at most 32 columns, `int32_t`
integers, `uint32_t`-sized text/blob payloads),
`row_get_serialized_size` equals the length of the bytes `row_serialize`
produces; and when additionally no column holds an EMPTY text value,
`row_deserialize` applied to those bytes reconstructs the row exactly,
types and byte content included, returning the byte count consumed.
(An empty text column breaks the round trip, as the counterexample
shows.) -/
theorem C5_row_codec (r : Row) (hvalid : ValidRow r) :
    row_get_serialized_size r = (row_serialize_bytes r).length
    ∧ (RowNoEmptyText r →
        row_deserialize (row_serialize_bytes r)
          = ((row_get_serialized_size r : Int), r)) := by
  obtain ⟨hcount, hvals⟩ := hvalid
  constructor
  · unfold row_get_serialized_size row_serialize_bytes
    rw [List.length_append, List.length_flatten]
    simp only [put_u16, List.length_cons, List.length_nil, List.map_map]
    have : (r.map (List.length ∘ serialize_value)) = r.map value_size := by
      apply List.map_congr_left
      intro v _
      exact serialize_value_length v
    rw [this]
  · intro hnet
    unfold row_deserialize row_serialize_bytes
    rw [if_neg (by simp [put_u16])]
    have hc : get_u16 (put_u16 r.length ++ (r.map serialize_value).flatten)
        = r.length := by
      rw [get_u16_put_u16]
      exact Nat.mod_eq_of_lt (by
        have : AMIDB_MAX_COLUMNS = 32 := rfl
        omega)
    rw [hc]
    rw [if_neg (by omega)]
    have := row_deserialize_cols_spec r (put_u16 r.length) [] hvals hnet
    rw [show (put_u16 r.length).length = 2 by simp [put_u16]] at this
    rw [this]
    simp [row_get_serialized_size]

def c5w_row : Row := [.vint 7, .vtext [104, 105], .vblob [], .vnull]

/-- Witness: a concrete valid row with an integer, a non-empty text, an
empty blob and a null column satisfies the round-trip theorem. -/
theorem C5_witness :
    ValidRow c5w_row ∧
    (row_get_serialized_size c5w_row = (row_serialize_bytes c5w_row).length
      ∧ (RowNoEmptyText c5w_row →
          row_deserialize (row_serialize_bytes c5w_row)
            = ((row_get_serialized_size c5w_row : Int), c5w_row))) :=
  ⟨by decide, C5_row_codec c5w_row (by decide)⟩

/-! ## Declarative characterization of the WAL recovery passes -/

/-- Declarative walk of the WAL region, following the spec's description
of recovery: visit records from offset 0 up to `wal_head`, stopping at a
record whose header does not fit the region, whose magic mismatches, or -
only when `checkCrc` is set - whose checksum fails to verify.  Pass 1 of
the spec is the walk with the checksum stopping rule; the claim asserts
pass 2 uses the same rules, the code's pass 2 is the walk without it. -/
def walkRecords (region : List Byte) (wal_head : Nat) (checkCrc : Bool) :
    Nat → Nat → List (Nat × WalRecordHeader)
  | _, 0 => []
  | offset, fuel + 1 =>
    if offset < wal_head ∧ offset + 24 ≤ WAL_REGION_SIZE then
      let hdr := parseWalHeader ((region.drop offset).take 24)
      if hdr.magic ≠ WAL_MAGIC then []
      else if checkCrc = true ∧
          wal_verify_checksum (region.drop offset) hdr.record_size = false then []
      else (offset, hdr) :: walkRecords region wal_head checkCrc
        (offset + hdr.record_size) fuel
    else []

/-- The txn_ids of the COMMIT records among the walked records. -/
def walkCommits (l : List (Nat × WalRecordHeader)) : List Nat :=
  (l.filter fun r => decide (r.2.record_type = WAL_COMMIT)).map fun r => r.2.txn_id

/-- Replaying the walked records: every PAGE record of a committed
transaction has its embedded image written to the pager at the embedded
page number (the code reads both from the record body, past the 24-byte
header, regardless of the declared record_size). -/
def applyPageRecords (region : List Byte) (committed : List Nat) :
    List (Nat × WalRecordHeader) → Pager → Pager
  | [], p => p
  | (offset, hdr) :: rest, p =>
    if committed.contains hdr.txn_id ∧ hdr.record_type = WAL_PAGE then
      applyPageRecords region committed rest
        (pager_write_page p (get_u32 (region.drop (offset + 24)))
          ((region.drop (offset + 28)).take AMIDB_PAGE_SIZE)).2
    else applyPageRecords region committed rest p

/-- Pass 1 collects exactly the commits of the checksum-checking walk,
truncated to the first `WAL_MAX_RECORDS` not already in the accumulator. -/
theorem wal_scan_pass1_walk (region : List Byte) (head : Nat) :
    ∀ (fuel offset : Nat) (acc : List Nat),
      wal_scan_pass1 region head offset acc fuel
        = acc ++ (walkCommits (walkRecords region head true offset fuel)).take
            (WAL_MAX_RECORDS - acc.length) := by
  intro fuel
  induction fuel with
  | zero => intro offset acc; simp [wal_scan_pass1, walkRecords, walkCommits]
  | succ fuel ih =>
    intro offset acc
    simp only [wal_scan_pass1, walkRecords, eq_self_iff_true, true_and]
    by_cases hcond : offset < head ∧ offset + 24 ≤ WAL_REGION_SIZE
    · rw [if_pos hcond, if_pos hcond]
      set hdr := parseWalHeader ((region.drop offset).take 24) with hhdr
      by_cases hmagic : hdr.magic ≠ WAL_MAGIC
      · rw [if_pos hmagic, if_pos hmagic]
        simp [walkCommits]
      · rw [if_neg hmagic, if_neg hmagic]
        by_cases hcrc : wal_verify_checksum (region.drop offset) hdr.record_size = false
        · rw [if_pos hcrc, if_pos hcrc]
          simp [walkCommits]
        · rw [if_neg hcrc, if_neg hcrc]
          by_cases htype : hdr.record_type = WAL_COMMIT
          · have hwcc : walkCommits ((offset, hdr) ::
                  walkRecords region head true (offset + hdr.record_size) fuel)
                = hdr.txn_id ::
                  walkCommits (walkRecords region head true (offset + hdr.record_size) fuel) := by
              simp [walkCommits, htype]
            by_cases hlen : acc.length < WAL_MAX_RECORDS
            · have hacc : (if hdr.record_type = WAL_COMMIT ∧
                    acc.length < WAL_MAX_RECORDS
                  then acc ++ [hdr.txn_id] else acc) = acc ++ [hdr.txn_id] :=
                if_pos ⟨htype, hlen⟩
              rw [hacc, ih, hwcc]
              rw [(show WAL_MAX_RECORDS - acc.length
                    = WAL_MAX_RECORDS - (acc ++ [hdr.txn_id]).length + 1 by
                  rw [List.length_append, List.length_singleton]
                  have h256 : WAL_MAX_RECORDS = 256 := rfl
                  omega), List.take_succ_cons]
              simp
            · have hacc : (if hdr.record_type = WAL_COMMIT ∧
                    acc.length < WAL_MAX_RECORDS
                  then acc ++ [hdr.txn_id] else acc) = acc :=
                if_neg (by intro h; exact hlen h.2)
              rw [hacc, ih, hwcc]
              have h0 : WAL_MAX_RECORDS - acc.length = 0 := by omega
              rw [h0]
              simp
          · have hwcc : walkCommits ((offset, hdr) ::
                  walkRecords region head true (offset + hdr.record_size) fuel)
                = walkCommits (walkRecords region head true (offset + hdr.record_size) fuel) := by
              simp [walkCommits, htype]
            have hacc : (if hdr.record_type = WAL_COMMIT ∧
                  acc.length < WAL_MAX_RECORDS
                then acc ++ [hdr.txn_id] else acc) = acc :=
              if_neg (by intro h; exact htype h.1)
            rw [hacc, ih, hwcc]
    · rw [if_neg hcond, if_neg hcond]
      simp [walkCommits]

theorem pager_write_page_ok (p : Pager) (n : Nat) (d : List Byte)
    (hro : p.read_only = false) (hn : n < AMIDB_MAX_PAGES) :
    (pager_write_page p n d).1 = 0 := by
  unfold pager_write_page
  rw [if_neg (by simp [hro]; omega)]

theorem pager_write_page_read_only (p : Pager) (n : Nat) (d : List Byte) :
    (pager_write_page p n d).2.read_only = p.read_only := by
  unfold pager_write_page
  split <;> rfl

/-- Pass 2 replays, in order, the PAGE records of committed transactions
among the records of the walk withOUT the checksum stopping rule,
provided the pager is writable and every replayed page number is in
range (so no replay write fails). -/
theorem wal_scan_pass2_walk (region : List Byte) (head : Nat) (committed : List Nat) :
    ∀ (fuel offset : Nat) (p : Pager), p.read_only = false →
      (∀ r ∈ walkRecords region head false offset fuel,
          (committed.contains r.2.txn_id ∧ r.2.record_type = WAL_PAGE) →
          get_u32 (region.drop (r.1 + 24)) < AMIDB_MAX_PAGES) →
      wal_scan_pass2 region head committed offset p fuel
        = (AMIDB_OK,
            applyPageRecords region committed
              (walkRecords region head false offset fuel) p) := by
  intro fuel
  induction fuel with
  | zero => intro offset p _ _; simp [wal_scan_pass2, walkRecords, applyPageRecords]
  | succ fuel ih =>
    intro offset p hro hpages
    simp only [wal_scan_pass2, walkRecords, Bool.false_eq_true, false_and,
      if_false]
    by_cases hcond : offset < head ∧ offset + 24 ≤ WAL_REGION_SIZE
    · rw [if_pos hcond, if_pos hcond]
      set hdr := parseWalHeader ((region.drop offset).take 24) with hhdr
      by_cases hmagic : hdr.magic ≠ WAL_MAGIC
      · rw [if_pos hmagic, if_pos hmagic]
        simp [applyPageRecords]
      · rw [if_neg hmagic, if_neg hmagic]
        have hmem : (offset, hdr) ∈ walkRecords region head false offset (fuel + 1) := by
          simp only [walkRecords, Bool.false_eq_true, false_and, if_false]
          rw [if_pos hcond, if_neg hmagic]
          exact List.mem_cons_self _ _
        have htail : ∀ r ∈ walkRecords region head false (offset + hdr.record_size) fuel,
            (committed.contains r.2.txn_id ∧ r.2.record_type = WAL_PAGE) →
            get_u32 (region.drop (r.1 + 24)) < AMIDB_MAX_PAGES := by
          intro r hr
          refine hpages r ?_
          simp only [walkRecords, Bool.false_eq_true, false_and, if_false]
          rw [if_pos hcond, if_neg hmagic]
          exact List.mem_cons_of_mem _ hr
        by_cases happ : committed.contains hdr.txn_id ∧ hdr.record_type = WAL_PAGE
        · rw [if_pos happ]
          have hn : get_u32 (region.drop (offset + 24)) < AMIDB_MAX_PAGES :=
            hpages _ hmem happ
          have hrc : (pager_write_page p (get_u32 (region.drop (offset + 24)))
              ((region.drop (offset + 28)).take AMIDB_PAGE_SIZE)).1 = 0 :=
            pager_write_page_ok _ _ _ hro hn
          rw [if_neg (by rw [hrc]; simp)]
          rw [ih _ _ (by rw [pager_write_page_read_only]; exact hro) htail]
          simp only [applyPageRecords]
          rw [if_pos happ]
        · rw [if_neg happ]
          rw [ih _ _ hro htail]
          simp only [applyPageRecords]
          rw [if_neg happ]
    · rw [if_neg hcond, if_neg hcond]
      simp [applyPageRecords]

/-- C2 (amended): recovery walks the WAL region twice, but the two
passes do NOT share stopping rules: pass 1 stops at a magic mismatch or
a failed checksum and collects the txn_ids of the first 256 valid COMMIT
records, while pass 2 stops only at a magic mismatch (no checksum
re-verification) and writes to the pager the embedded page image of
every PAGE record of its own - longer - walk whose txn_id is in the
committed set.  Stated for a writable pager whose replayed page numbers
are in range, so that no replay write fails. -/
theorem C2_recovery_two_pass (wal : WalContext) (p : Pager)
    (hro : p.read_only = false)
    (hpages : ∀ r ∈ walkRecords
        (file_read_bytes p.file WAL_REGION_START WAL_REGION_SIZE)
        wal.wal_head false 0 (WAL_REGION_SIZE + 1),
      (((walkCommits (walkRecords
              (file_read_bytes p.file WAL_REGION_START WAL_REGION_SIZE)
              wal.wal_head true 0 (WAL_REGION_SIZE + 1))).take
            WAL_MAX_RECORDS).contains r.2.txn_id
        ∧ r.2.record_type = WAL_PAGE) →
      get_u32 ((file_read_bytes p.file WAL_REGION_START WAL_REGION_SIZE).drop
        (r.1 + 24)) < AMIDB_MAX_PAGES) :
    wal_recover wal p
      = (AMIDB_OK,
          { wal with wal_head := 0, wal_tail := 0, buffer := [] },
          applyPageRecords
            (file_read_bytes p.file WAL_REGION_START WAL_REGION_SIZE)
            ((walkCommits (walkRecords
                (file_read_bytes p.file WAL_REGION_START WAL_REGION_SIZE)
                wal.wal_head true 0 (WAL_REGION_SIZE + 1))).take WAL_MAX_RECORDS)
            (walkRecords
              (file_read_bytes p.file WAL_REGION_START WAL_REGION_SIZE)
              wal.wal_head false 0 (WAL_REGION_SIZE + 1)) p) := by
  simp only [wal_recover]
  rw [wal_scan_pass1_walk]
  simp only [List.nil_append, List.length_nil, Nat.sub_zero]
  rw [wal_scan_pass2_walk _ _ _ _ _ p hro hpages]
  simp [AMIDB_OK]

def c2w_pager : Pager :=
  { file := fun _ => 0, header := init_file_header, bitmap := fun _ => false,
    read_only := false }

def c2w_wal : WalContext := wal_create

/-- Witness: on a writable pager over an all-zero file with an empty WAL
(`wal_head = 0`), both walks are empty and recovery returns the pager
unchanged with the WAL cursors cleared. -/
theorem C2_witness :
    c2w_pager.read_only = false
    ∧ (∀ r ∈ walkRecords
          (file_read_bytes c2w_pager.file WAL_REGION_START WAL_REGION_SIZE)
          c2w_wal.wal_head false 0 (WAL_REGION_SIZE + 1),
        (((walkCommits (walkRecords
                (file_read_bytes c2w_pager.file WAL_REGION_START WAL_REGION_SIZE)
                c2w_wal.wal_head true 0 (WAL_REGION_SIZE + 1))).take
              WAL_MAX_RECORDS).contains r.2.txn_id
          ∧ r.2.record_type = WAL_PAGE) →
        get_u32 ((file_read_bytes c2w_pager.file WAL_REGION_START WAL_REGION_SIZE).drop
          (r.1 + 24)) < AMIDB_MAX_PAGES)
    ∧ wal_recover c2w_wal c2w_pager
        = (AMIDB_OK,
            { c2w_wal with wal_head := 0, wal_tail := 0, buffer := [] },
            applyPageRecords
              (file_read_bytes c2w_pager.file WAL_REGION_START WAL_REGION_SIZE)
              ((walkCommits (walkRecords
                  (file_read_bytes c2w_pager.file WAL_REGION_START WAL_REGION_SIZE)
                  c2w_wal.wal_head true 0 (WAL_REGION_SIZE + 1))).take WAL_MAX_RECORDS)
              (walkRecords
                (file_read_bytes c2w_pager.file WAL_REGION_START WAL_REGION_SIZE)
                c2w_wal.wal_head false 0 (WAL_REGION_SIZE + 1)) c2w_pager) :=
  ⟨rfl, by simp [walkRecords, c2w_wal, wal_create],
    C2_recovery_two_pass c2w_wal c2w_pager rfl
      (by simp [walkRecords, c2w_wal, wal_create])⟩

/-! ### A recovery scenario separating the two passes

A WAL region holding a valid COMMIT record for txn 1 followed by a
record with a good magic but a bad checksum.  Pass 1 stops at the bad
record (its commits were already collected); pass 2, which never
re-verifies checksums, walks straight through it and replays it. -/

/-- Reading `n` bytes over a write of `data` at the same offset into an
all-zero file: the data followed by zero padding. -/
theorem file_read_write_pad (off n : Nat) (data : List Byte) (h : data.length ≤ n) :
    file_read_bytes (file_write_bytes (fun _ => 0) off data) off n
      = data ++ List.replicate (n - data.length) 0 := by
  apply List.ext_getElem?
  intro i
  simp only [file_read_bytes, List.getElem?_map]
  by_cases hi : i < n
  · rw [List.getElem?_range hi, Option.map_some']
    by_cases hd : i < data.length
    · rw [List.getElem?_append, if_pos hd]
      rw [file_write_bytes_apply_in _ _ _ _ (by omega) (by omega)]
      rw [Nat.add_sub_cancel_left]
      rw [List.getD_eq_getElem data 0 hd, List.getElem?_eq_getElem hd]
    · rw [List.getElem?_append, if_neg hd]
      rw [file_write_bytes_apply_out _ _ _ _ (Or.inr (by omega))]
      rw [List.getElem?_eq_getElem (by simp; omega)]
      rw [List.getElem_replicate]
  · rw [List.getElem?_eq_none (by simp [List.length_range]; omega)]
    rw [List.getElem?_eq_none (by simp; omega)]
    rfl

def c2_commit_hdr0 : WalRecordHeader :=
  { magic := WAL_MAGIC, record_type := WAL_COMMIT, flags := 0,
    record_size := 24, txn_id := 1, checksum := 0 }

/-- The checksum `wal_write_record` computes for the COMMIT record. -/
def c2_crc : Nat := crc32_update 0 (walHeaderPrefix c2_commit_hdr0)

def c2_commit_hdr : WalRecordHeader :=
  { magic := WAL_MAGIC, record_type := WAL_COMMIT, flags := 0,
    record_size := 24, txn_id := 1, checksum := c2_crc }

def c2_commit : List Byte := serializeWalHeader c2_commit_hdr

/-- A header-only record for txn 1 claiming type PAGE with a zero
checksum: the magic is right, the checksum is wrong. -/
def c2_page_hdr : WalRecordHeader :=
  { magic := WAL_MAGIC, record_type := WAL_PAGE, flags := 0,
    record_size := 24, txn_id := 1, checksum := 0 }

/-- The crafted WAL region content: valid COMMIT, corrupt PAGE record,
then the bytes pass 2 interprets as its page_num (6) and page image
(byte 12 of the image is 0xAB). -/
def c2_regionBytes : List Byte :=
  c2_commit ++ (serializeWalHeader c2_page_hdr ++
    (put_u32 6 ++ (List.replicate 12 0 ++ [0xAB])))

def c2_file : File := file_write_bytes (fun _ => 0) WAL_REGION_START c2_regionBytes

def c2_pager : Pager :=
  { file := c2_file, header := init_file_header, bitmap := fun _ => false,
    read_only := false }

/-- The recovery-time WAL context: `wal_head = 48` covers the two
records (restored from the persisted header, pager.c line 292). -/
def c2_wal : WalContext := { wal_create with wal_head := 48 }

/-- The 128 KiB region image recovery reads back from the file. -/
def c2_region : List Byte :=
  c2_regionBytes ++ List.replicate (WAL_REGION_SIZE - 65) 0

def c2_rest2 : List Byte :=
  put_u32 6 ++ (List.replicate 12 0 ++
    ([0xAB] ++ List.replicate (WAL_REGION_SIZE - 65) 0))

theorem c2_regionBytes_length : c2_regionBytes.length = 65 := by
  simp [c2_regionBytes, c2_commit, serializeWalHeader_length, put_u32]

theorem c2_region_eq :
    file_read_bytes c2_pager.file WAL_REGION_START WAL_REGION_SIZE = c2_region := by
  show file_read_bytes (file_write_bytes (fun _ => 0) WAL_REGION_START c2_regionBytes)
      WAL_REGION_START WAL_REGION_SIZE = c2_region
  rw [file_read_write_pad _ _ _ (by rw [c2_regionBytes_length]; decide)]
  rw [c2_regionBytes_length]
  rfl

theorem c2_region_split1 :
    c2_region = c2_commit ++ (serializeWalHeader c2_page_hdr ++ c2_rest2) := by
  simp [c2_region, c2_regionBytes, c2_rest2]

theorem c2_take24 : c2_region.take 24 = c2_commit := by
  rw [c2_region_split1]
  exact List.take_left' (serializeWalHeader_length c2_commit_hdr)

theorem c2_drop24 :
    c2_region.drop 24 = serializeWalHeader c2_page_hdr ++ c2_rest2 := by
  rw [c2_region_split1]
  exact List.drop_left' (serializeWalHeader_length c2_commit_hdr)

theorem c2_drop48 : c2_region.drop 48 = c2_rest2 := by
  have h := congrArg (List.drop 24) c2_drop24
  rw [List.drop_drop] at h
  rw [show (48 : Nat) = 24 + 24 from rfl, h]
  exact List.drop_left' (serializeWalHeader_length c2_page_hdr)

theorem c2_drop52 :
    c2_region.drop 52
      = List.replicate 12 0 ++ ([0xAB] ++ List.replicate (WAL_REGION_SIZE - 65) 0) := by
  have h := congrArg (List.drop 4) c2_drop48
  rw [List.drop_drop] at h
  rw [show (52 : Nat) = 48 + 4 by omega, h]
  unfold c2_rest2
  exact List.drop_left' (by simp [put_u32])

theorem c2_crc_lt : c2_crc < 4294967296 :=
  crc32_update_lt _ (by norm_num)

theorem c2_parse1 : parseWalHeader (c2_region.take 24) = c2_commit_hdr := by
  rw [c2_take24]
  rw [show c2_commit = serializeWalHeader c2_commit_hdr ++ [] by simp [c2_commit]]
  rw [parse_serializeWalHeader]
  have hlt := c2_crc_lt
  refine WalRecordHeader.ext ?_ ?_ ?_ ?_ ?_ ?_ <;>
    simp [c2_commit_hdr, WAL_MAGIC, WAL_COMMIT] <;> omega

theorem c2_parse2 : parseWalHeader ((c2_region.drop 24).take 24) = c2_page_hdr := by
  rw [c2_drop24, List.take_left' (serializeWalHeader_length c2_page_hdr)]
  rw [show serializeWalHeader c2_page_hdr
      = serializeWalHeader c2_page_hdr ++ [] by simp]
  rw [parse_serializeWalHeader]
  refine WalRecordHeader.ext ?_ ?_ ?_ ?_ ?_ ?_ <;> decide

theorem c2_take20 : c2_region.take 20 = walHeaderPrefix c2_commit_hdr := by
  have h : (c2_region.take 24).take 20 = c2_region.take 20 := by
    rw [List.take_take]
    norm_num
  rw [← h, c2_take24]
  rw [show c2_commit = walHeaderPrefix c2_commit_hdr ++ put_u32 c2_crc from rfl]
  exact List.take_left' (walHeaderPrefix_length c2_commit_hdr)

theorem c2_drop24_take20 :
    (c2_region.drop 24).take 20 = walHeaderPrefix c2_page_hdr := by
  rw [c2_drop24]
  rw [show serializeWalHeader c2_page_hdr
      = walHeaderPrefix c2_page_hdr ++ put_u32 0 from rfl]
  rw [List.append_assoc]
  exact List.take_left' (walHeaderPrefix_length c2_page_hdr)

theorem c2_verify1 : wal_verify_checksum c2_region 24 = true := by
  unfold wal_verify_checksum
  rw [if_neg (by decide)]
  simp only [c2_parse1, c2_take20]
  have hsz : c2_commit_hdr.record_size = 24 := rfl
  have hck : c2_commit_hdr.checksum = c2_crc := rfl
  rw [hsz, hck]
  rw [show (24 + 4294967296 - 24) % 4294967296 = 0 from by norm_num]
  have hpre : walHeaderPrefix c2_commit_hdr = walHeaderPrefix c2_commit_hdr0 := by
    simp [walHeaderPrefix, c2_commit_hdr, c2_commit_hdr0]
  simp [c2_crc, hpre]

set_option maxRecDepth 8192 in
theorem c2_page_crc_ne_zero :
    crc32_update 0 (walHeaderPrefix c2_page_hdr) ≠ 0 := by decide

theorem c2_verify2 : wal_verify_checksum (c2_region.drop 24) 24 = false := by
  unfold wal_verify_checksum
  rw [if_neg (by decide)]
  simp only [c2_parse2, c2_drop24_take20]
  have hsz : c2_page_hdr.record_size = 24 := rfl
  have hck : c2_page_hdr.checksum = 0 := rfl
  rw [hsz, hck]
  rw [show (24 + 4294967296 - 24) % 4294967296 = 0 from by norm_num]
  simp only [gt_iff_lt, Nat.lt_irrefl, if_false, decide_eq_false_iff_not]
  have h := c2_page_crc_ne_zero
  simpa using h

/-- One step of pass 1, spelled out (definitional). -/
theorem wal_scan_pass1_succ (region : List Byte) (head offset : Nat)
    (acc : List Nat) (fuel : Nat) :
    wal_scan_pass1 region head offset acc (fuel + 1)
      = if offset < head ∧ offset + 24 ≤ WAL_REGION_SIZE then
          (if (parseWalHeader ((region.drop offset).take 24)).magic ≠ WAL_MAGIC then acc
           else if wal_verify_checksum (region.drop offset)
               (parseWalHeader ((region.drop offset).take 24)).record_size = false then acc
           else wal_scan_pass1 region head
             (offset + (parseWalHeader ((region.drop offset).take 24)).record_size)
             (if (parseWalHeader ((region.drop offset).take 24)).record_type = WAL_COMMIT
                 ∧ acc.length < WAL_MAX_RECORDS
              then acc ++ [(parseWalHeader ((region.drop offset).take 24)).txn_id]
              else acc)
             fuel)
        else acc := rfl

/-- One step of pass 2, spelled out (definitional). -/
theorem wal_scan_pass2_succ (region : List Byte) (head : Nat)
    (committed : List Nat) (offset : Nat) (p : Pager) (fuel : Nat) :
    wal_scan_pass2 region head committed offset p (fuel + 1)
      = if offset < head ∧ offset + 24 ≤ WAL_REGION_SIZE then
          (if (parseWalHeader ((region.drop offset).take 24)).magic ≠ WAL_MAGIC
           then (AMIDB_OK, p)
           else if committed.contains
                 (parseWalHeader ((region.drop offset).take 24)).txn_id
               ∧ (parseWalHeader ((region.drop offset).take 24)).record_type = WAL_PAGE
           then
             (if (pager_write_page p (get_u32 (region.drop (offset + 24)))
                   ((region.drop (offset + 28)).take AMIDB_PAGE_SIZE)).1 ≠ 0
              then ((pager_write_page p (get_u32 (region.drop (offset + 24)))
                     ((region.drop (offset + 28)).take AMIDB_PAGE_SIZE)).1,
                    (pager_write_page p (get_u32 (region.drop (offset + 24)))
                     ((region.drop (offset + 28)).take AMIDB_PAGE_SIZE)).2)
              else wal_scan_pass2 region head committed
                (offset + (parseWalHeader ((region.drop offset).take 24)).record_size)
                (pager_write_page p (get_u32 (region.drop (offset + 24)))
                  ((region.drop (offset + 28)).take AMIDB_PAGE_SIZE)).2 fuel)
           else wal_scan_pass2 region head committed
             (offset + (parseWalHeader ((region.drop offset).take 24)).record_size)
             p fuel)
        else (AMIDB_OK, p) := rfl

theorem c2_pass1 :
    wal_scan_pass1 c2_region 48 0 [] (WAL_REGION_SIZE + 1) = [1] := by
  rw [wal_scan_pass1_succ]
  rw [if_pos (show (0 : Nat) < 48 ∧ 0 + 24 ≤ WAL_REGION_SIZE by decide)]
  rw [List.drop_zero, c2_parse1]
  have hm1 : ¬(c2_commit_hdr.magic ≠ WAL_MAGIC) := by decide
  rw [if_neg hm1]
  have hsz1 : c2_commit_hdr.record_size = 24 := rfl
  rw [hsz1]
  have hnc : ¬(wal_verify_checksum c2_region 24 = false) := by
    rw [c2_verify1]; simp
  rw [if_neg hnc]
  have hacc : (if c2_commit_hdr.record_type = WAL_COMMIT ∧
        ([] : List Nat).length < WAL_MAX_RECORDS
      then ([] : List Nat) ++ [c2_commit_hdr.txn_id] else []) = [1] := by
    rw [if_pos (by constructor <;> decide)]
    decide
  rw [hacc]
  rw [show (0 + 24 : Nat) = 24 from rfl]
  rw [show WAL_REGION_SIZE = 131071 + 1 from rfl]
  rw [wal_scan_pass1_succ]
  rw [if_pos (show (24 : Nat) < 48 ∧ 24 + 24 ≤ WAL_REGION_SIZE by decide)]
  rw [c2_parse2]
  have hm2 : ¬(c2_page_hdr.magic ≠ WAL_MAGIC) := by decide
  rw [if_neg hm2]
  have hsz2 : c2_page_hdr.record_size = 24 := rfl
  rw [hsz2]
  rw [if_pos c2_verify2]

/-- The 4096-byte image pass 2 replays out of the corrupt record's
trailing bytes. -/
def c2_image : List Byte := (c2_region.drop 52).take 4096

theorem c2_region_length : c2_region.length = 131072 := by
  simp only [c2_region, List.length_append, c2_regionBytes_length,
    List.length_replicate]
  decide

theorem c2_image_length : c2_image.length = 4096 := by
  simp only [c2_image, List.length_take, List.length_drop, c2_region_length]
  omega

/-- The pager state after pass 2 replays the corrupt PAGE record. -/
def c2_pager2 : Pager :=
  { c2_pager with
      file := file_write_bytes c2_file (6 * AMIDB_PAGE_SIZE) (stamp_page 6 c2_image) }

theorem c2_pass2 :
    wal_scan_pass2 c2_region 48 [1] 0 c2_pager (WAL_REGION_SIZE + 1)
      = (AMIDB_OK, c2_pager2) := by
  rw [wal_scan_pass2_succ]
  rw [if_pos (show (0 : Nat) < 48 ∧ 0 + 24 ≤ WAL_REGION_SIZE by decide)]
  rw [List.drop_zero, c2_parse1]
  have hm1 : ¬(c2_commit_hdr.magic ≠ WAL_MAGIC) := by decide
  rw [if_neg hm1]
  have hskip : ¬(([1] : List Nat).contains c2_commit_hdr.txn_id = true ∧
      c2_commit_hdr.record_type = WAL_PAGE) := by decide
  rw [if_neg hskip]
  rw [show (0 + c2_commit_hdr.record_size : Nat) = 24 from rfl]
  rw [show WAL_REGION_SIZE = 131071 + 1 from rfl]
  rw [wal_scan_pass2_succ]
  rw [if_pos (show (24 : Nat) < 48 ∧ 24 + 24 ≤ WAL_REGION_SIZE by decide)]
  rw [c2_parse2]
  have hm2 : ¬(c2_page_hdr.magic ≠ WAL_MAGIC) := by decide
  rw [if_neg hm2]
  have happ : ([1] : List Nat).contains c2_page_hdr.txn_id = true ∧
      c2_page_hdr.record_type = WAL_PAGE := by decide
  rw [if_pos happ]
  rw [show (24 + 24 : Nat) = 48 from rfl, c2_drop48]
  have hpn : get_u32 c2_rest2 = 6 := by
    unfold c2_rest2
    rw [get_u32_put_u32]
  rw [hpn]
  rw [show (24 + 28 : Nat) = 52 from rfl]
  rw [show ((c2_region.drop 52).take AMIDB_PAGE_SIZE) = c2_image from rfl]
  have hw : pager_write_page c2_pager 6 c2_image = ((0 : Int), c2_pager2) := by
    unfold pager_write_page
    rw [if_neg (by decide)]
    rfl
  rw [hw]
  have hrc : ¬(((0 : Int), c2_pager2).1 ≠ 0) := by simp
  rw [if_neg hrc]
  rw [show (24 + c2_page_hdr.record_size : Nat) = 48 from rfl]
  rw [show (131071 : Nat) = 131070 + 1 from rfl]
  rw [wal_scan_pass2_succ]
  have hstop : ¬(48 < 48 ∧ 48 + 24 ≤ WAL_REGION_SIZE) := by decide
  rw [if_neg hstop]

theorem c2_recover :
    wal_recover c2_wal c2_pager
      = (AMIDB_OK, { c2_wal with wal_head := 0, wal_tail := 0, buffer := [] },
          c2_pager2) := by
  simp only [wal_recover]
  rw [show c2_wal.wal_head = 48 from rfl]
  rw [c2_region_eq, c2_pass1, c2_pass2]
  have hr : ¬((AMIDB_OK, c2_pager2).1 ≠ 0) := by simp [AMIDB_OK]
  rw [if_neg hr]

/-- C2 counterexample: the two recovery passes do not use identical
stopping rules.  The crafted region holds a valid COMMIT record for
txn 1 at offset 0 and, at offset 24, a record with a good magic but a
checksum that fails to verify.  Pass 1 stops at offset 24 (after
collecting txn 1), so under the claimed identical stopping rules no PAGE
record would ever be applied; but the code's pass 2 never re-verifies
checksums: recovery succeeds and writes the corrupt record's embedded
image into page 6 (byte 12 of page 6 changes from 0 to 0xAB). -/
theorem C2_counterexample :
    wal_verify_checksum (c2_region.drop 24) 24 = false
    ∧ wal_scan_pass1 c2_region 48 0 [] (WAL_REGION_SIZE + 1) = [1]
    ∧ (wal_recover c2_wal c2_pager).1 = AMIDB_OK
    ∧ (wal_recover c2_wal c2_pager).2.2.file (6 * AMIDB_PAGE_SIZE + 12) = 0xAB
    ∧ c2_pager.file (6 * AMIDB_PAGE_SIZE + 12) = 0 := by
  refine ⟨c2_verify2, c2_pass1, ?_, ?_, ?_⟩
  · exact congrArg (fun s : Int × WalContext × Pager => s.1) c2_recover
  · have hlen4096 : (stamp_page 6 c2_image).length = 4096 :=
      stamp_page_length 6 c2_image c2_image_length
    have hin : file_write_bytes c2_file (6 * AMIDB_PAGE_SIZE) (stamp_page 6 c2_image)
        (6 * AMIDB_PAGE_SIZE + 12)
        = (stamp_page 6 c2_image).getD (6 * AMIDB_PAGE_SIZE + 12 - 6 * AMIDB_PAGE_SIZE) 0 :=
      file_write_bytes_apply_in c2_file (6 * AMIDB_PAGE_SIZE) (stamp_page 6 c2_image)
        (6 * AMIDB_PAGE_SIZE + 12) (by omega)
        (by rw [hlen4096]
            have hps : AMIDB_PAGE_SIZE = 4096 := rfl
            omega)
    have hidx : (6 * AMIDB_PAGE_SIZE + 12 - 6 * AMIDB_PAGE_SIZE) = 12 := by omega
    have hval : (stamp_page 6 c2_image).getD 12 0 = 0xAB := by decide
    have hfeq : c2_pager2.file
        = file_write_bytes c2_file (6 * AMIDB_PAGE_SIZE) (stamp_page 6 c2_image) := rfl
    have hfun := (congrArg
      (fun s : Int × WalContext × Pager => s.2.2.file) c2_recover).trans hfeq
    exact (congrFun hfun (6 * AMIDB_PAGE_SIZE + 12)).trans
      (hin.trans (by rw [hidx, hval]))
  · show file_write_bytes (fun _ => 0) WAL_REGION_START c2_regionBytes
        (6 * AMIDB_PAGE_SIZE + 12) = 0
    rw [file_write_bytes_apply_out (fun _ => 0) WAL_REGION_START c2_regionBytes
      (6 * AMIDB_PAGE_SIZE + 12)
      (Or.inr (by rw [c2_regionBytes_length]; decide))]

/-! ## B+Tree (src/storage/btree.c, src/storage/btree.h)

The node-level embedding: `cache_get_page` + `deserialize_node` is a
lookup in a total page-indexed node store, and `serialize_node` +
`pager_write_page`/`cache_mark_dirty` is a store update (the row of
byte-level codecs is exact for in-range `int32_t` keys and `uint32_t`
values).  `pager_allocate_page` is modelled by a fresh-page counter; the
C arrays `keys`/`children`/`values` are total functions, with all
predicates restricted to the `num_keys` window exactly as the code
restricts its loops. -/

def BTREE_ORDER : Nat := 64
def BTREE_NODE_INTERNAL : Nat := 1
def BTREE_NODE_LEAF : Nat := 2

/-- Structure `struct btree_node`. -/
structure BTreeNode where
  node_type : Nat
  num_keys : Nat
  parent : Nat
  next_leaf : Nat
  keys : Nat → Int
  children : Nat → Nat
  values : Nat → Nat

abbrev NodeStore := Nat → BTreeNode

def store_write (s : NodeStore) (p : Nat) (nd : BTreeNode) : NodeStore :=
  fun q => if q = p then nd else s q

/-- Structure `struct btree` over the node store: the pager/cache pair
collapses to `store`, plus the root page and the allocation cursor. -/
structure BTree where
  store : NodeStore
  root_page : Nat
  next_page : Nat

/-- The loop of `find_key_in_node` (btree.c lines 160-178): binary search
with `int32_t` cursors; `(right - left) / 2` only ever divides a
non-negative value, where Lean and C division agree. -/
def bsearch (keys : Nat → Int) (key : Int) : Int → Int → Nat → Int
  | left, _, 0 => left
  | left, right, fuel + 1 =>
    if left ≤ right then
      let mid := left + (right - left) / 2
      if keys mid.toNat = key then mid
      else if keys mid.toNat < key then bsearch keys key (mid + 1) right fuel
      else bsearch keys key left (mid - 1) fuel
    else left

/-- Function `find_key_in_node`: the interval shrinks every iteration,
so `num_keys + 2` iterations always suffice. -/
def find_key_in_node (node : BTreeNode) (key : Int) : Int :=
  bsearch node.keys key 0 ((node.num_keys : Int) - 1) (node.num_keys + 2)

/-- The `while (1)` descent of `find_leaf_page` (btree.c lines 183-225),
bounded by fuel (the C loop is unbounded; a descent that does not reach
a leaf within `AMIDB_MAX_PAGES` steps cycles forever). -/
def find_leaf_loop (s : NodeStore) (key : Int) : Nat → Nat → Option Nat
  | _, 0 => none
  | current, fuel + 1 =>
    let node := s current
    if node.node_type = BTREE_NODE_LEAF then some current
    else
      let index := find_key_in_node node key
      let next :=
        if (node.num_keys : Int) ≤ index then node.children node.num_keys
        else if key < node.keys index.toNat then node.children index.toNat
        else node.children (index.toNat + 1)
      if next = 0 then none
      else find_leaf_loop s key next fuel

def find_leaf_page (t : BTree) (key : Int) : Option Nat :=
  find_leaf_loop t.store key t.root_page AMIDB_MAX_PAGES

/-- The in-node part of `btree_insert` (btree.c lines 405-424): update in
place on an exact hit, otherwise shift `keys`/`values` above the
insertion index up by one and install the new pair. -/
def leaf_insert_node (node : BTreeNode) (key : Int) (value : Nat) : BTreeNode :=
  let index := find_key_in_node node key
  if index < (node.num_keys : Int) ∧ node.keys index.toNat = key then
    { node with values := fun i => if i = index.toNat then value else node.values i }
  else
    { node with
        keys := fun i => if i = index.toNat then key
                         else if index.toNat < i ∧ i ≤ node.num_keys then node.keys (i - 1)
                         else node.keys i
        values := fun i => if i = index.toNat then value
                           else if index.toNat < i ∧ i ≤ node.num_keys then node.values (i - 1)
                           else node.values i
        num_keys := node.num_keys + 1 }

def empty_node (node_type : Nat) : BTreeNode :=
  { node_type := node_type, num_keys := 0, parent := 0, next_leaf := 0,
    keys := fun _ => 0, children := fun _ => 0, values := fun _ => 0 }

/-- Function `allocate_node` (btree.c lines 672-711): a fresh page
holding a zeroed node of the requested type. -/
def allocate_node (t : BTree) (node_type : Nat) : BTree × Nat :=
  ({ t with
      store := store_write t.store t.next_page (empty_node node_type)
      next_page := t.next_page + 1 }, t.next_page)

/-- Function `split_leaf_node` (btree.c lines 717-781). -/
def split_leaf_node (t : BTree) (leaf_page : Nat) : BTree × Int × Nat :=
  let old := t.store leaf_page
  let res := allocate_node t BTREE_NODE_LEAF
  let t1 := res.1
  let new_page := res.2
  let si := BTREE_ORDER / 2
  let m := old.num_keys - si
  let newn : BTreeNode :=
    { node_type := BTREE_NODE_LEAF
      num_keys := m
      parent := old.parent
      next_leaf := old.next_leaf
      keys := fun i => if i < m then old.keys (si + i) else 0
      values := fun i => if i < m then old.values (si + i) else 0
      children := fun _ => 0 }
  let oldn := { old with num_keys := si, next_leaf := new_page }
  ({ t1 with store := store_write (store_write t1.store leaf_page oldn) new_page newn },
    newn.keys 0, new_page)

/-- Function `split_internal_node` (btree.c lines 921-992): the middle
key moves up; the second half (past the middle) moves to the new node,
whose children get their `parent` pointers rewritten. -/
def split_internal_node (t : BTree) (internal_page : Nat) : BTree × Int × Nat :=
  let old := t.store internal_page
  let res := allocate_node t BTREE_NODE_INTERNAL
  let t1 := res.1
  let new_page := res.2
  let si := BTREE_ORDER / 2
  let m := old.num_keys - (si + 1)
  let newn : BTreeNode :=
    { node_type := BTREE_NODE_INTERNAL
      num_keys := m
      parent := old.parent
      next_leaf := 0
      keys := fun i => if i < m then old.keys (si + 1 + i) else 0
      children := fun i => if i < m then old.children (si + 1 + i)
                           else if i = m then old.children old.num_keys else 0
      values := fun _ => 0 }
  let t2 := { t1 with
    store := (List.range (m + 1)).foldl
      (fun st i => store_write st (newn.children i)
        { st (newn.children i) with parent := new_page })
      t1.store }
  let oldn := { old with num_keys := si }
  ({ t2 with store := store_write (store_write t2.store internal_page oldn) new_page newn },
    old.keys si, new_page)

/-- The tail of `insert_into_parent` (btree.c lines 886-915): shift the
parent's keys/children above the insertion index, install the separator
and the right child, and repoint the right child's parent. -/
def insert_key_into_internal (t : BTree) (parent_page : Nat) (key : Int)
    (right_page : Nat) : BTree :=
  let pn := t.store parent_page
  let index := find_key_in_node pn key
  let pn' : BTreeNode :=
    { pn with
        keys := fun i => if i = index.toNat then key
                         else if index.toNat < i ∧ i ≤ pn.num_keys then pn.keys (i - 1)
                         else pn.keys i
        children := fun i => if i = index.toNat + 1 then right_page
                             else if index.toNat + 1 < i ∧ i ≤ pn.num_keys + 1 then
                               pn.children (i - 1)
                             else pn.children i
        num_keys := pn.num_keys + 1 }
  let s1 := store_write t.store parent_page pn'
  let s2 := store_write s1 right_page { s1 right_page with parent := parent_page }
  { t with store := s2 }

/-- Function `insert_into_parent` (btree.c lines 786-916), fuelled for
the recursion up the tree.  `none` models the C error return. -/
def insert_into_parent (t : BTree) (left_page : Nat) (key : Int) (right_page : Nat) :
    Nat → Option BTree
  | 0 => none
  | fuel + 1 =>
    let parent_page := (t.store left_page).parent
    if parent_page = 0 then
      let res := allocate_node t BTREE_NODE_INTERNAL
      let t1 := res.1
      let new_root_page := res.2
      let rootn : BTreeNode :=
        { node_type := BTREE_NODE_INTERNAL
          num_keys := 1
          parent := 0
          next_leaf := 0
          keys := fun i => if i = 0 then key else 0
          children := fun i => if i = 0 then left_page
                               else if i = 1 then right_page else 0
          values := fun _ => 0 }
      let s1 := store_write t1.store new_root_page rootn
      let s2 := store_write s1 left_page { s1 left_page with parent := new_root_page }
      let s3 := store_write s2 right_page { s2 right_page with parent := new_root_page }
      some { t1 with store := s3, root_page := new_root_page }
    else
      let parent := t.store parent_page
      if BTREE_ORDER ≤ parent.num_keys then
        let res := split_internal_node t parent_page
        let t1 := res.1
        let split_key := res.2.1
        let new_page := res.2.2
        match insert_into_parent t1 parent_page split_key new_page fuel with
        | none => none
        | some t2 =>
          let parent_page2 := (t2.store left_page).parent
          some (insert_key_into_internal t2 parent_page2 key right_page)
      else
        some (insert_key_into_internal t parent_page key right_page)

/-- Function `btree_insert` (btree.c lines 352-432). -/
def btree_insert (t : BTree) (key : Int) (value : Nat) : Int × BTree :=
  match find_leaf_page t key with
  | none => (-1, t)
  | some leaf_page =>
    let node := t.store leaf_page
    if BTREE_ORDER ≤ node.num_keys then
      let res := split_leaf_node t leaf_page
      let t1 := res.1
      let split_key := res.2.1
      let new_page := res.2.2
      match insert_into_parent t1 leaf_page split_key new_page AMIDB_MAX_PAGES with
      | none => (-1, t1)
      | some t2 =>
        match find_leaf_page t2 key with
        | none => (-1, t2)
        | some leaf2 =>
          let node2 := leaf_insert_node (t2.store leaf2) key value
          (0, { t2 with store := store_write t2.store leaf2 node2 })
    else
      let node1 := leaf_insert_node node key value
      (0, { t with store := store_write t.store leaf_page node1 })

/-- Function `btree_search` (btree.c lines 437-472). -/
def btree_search (t : BTree) (key : Int) : Int × Nat :=
  match find_leaf_page t key with
  | none => (-1, 0)
  | some leaf_page =>
    let node := t.store leaf_page
    let index := find_key_in_node node key
    if index < (node.num_keys : Int) ∧ node.keys index.toNat = key then
      (0, node.values index.toNat)
    else (-1, 0)

/-- A node's keys are monotone on the `num_keys` window. -/
def SortedNode (nd : BTreeNode) : Prop :=
  ∀ i j : Nat, i ≤ j → j < nd.num_keys → nd.keys i ≤ nd.keys j

/-- The reachability invariant: every page holding a LEAF node has
monotone keys (established by `btree_create`'s empty root and preserved
by every write `btree_insert` performs). -/
def LeavesSorted (s : NodeStore) : Prop :=
  ∀ p, (s p).node_type = BTREE_NODE_LEAF → SortedNode (s p)

/-- Correctness of the binary-search loop on a monotone window: the
result is in `[0, n]`, and either it is an exact hit, or the key is
strictly separated by the result index (hence absent). -/
theorem bsearch_spec (f : Nat → Int) (k : Int) (n : Nat)
    (hs : ∀ i j : Nat, i ≤ j → j < n → f i ≤ f j) :
    ∀ (fuel : Nat) (left right : Int),
      0 ≤ left → left ≤ (n : Int) → right < (n : Int) →
      right < left + (fuel : Int) →
      (∀ j : Nat, (j : Int) < left → f j < k) →
      (∀ j : Nat, right < (j : Int) → j < n → k < f j) →
      0 ≤ bsearch f k left right fuel ∧ bsearch f k left right fuel ≤ (n : Int) ∧
      ((bsearch f k left right fuel < (n : Int)
          ∧ f (bsearch f k left right fuel).toNat = k)
        ∨ ((∀ j : Nat, (j : Int) < bsearch f k left right fuel → f j < k)
            ∧ (∀ j : Nat, bsearch f k left right fuel ≤ (j : Int) → j < n →
                k < f j))) := by
  intro fuel
  induction fuel with
  | zero =>
    intro left right h0 hln hrn hfuel hlow hhigh
    simp only [bsearch]
    refine ⟨h0, hln, Or.inr ⟨hlow, ?_⟩⟩
    intro j hj1 hj2
    exact hhigh j (by omega) hj2
  | succ fuel ih =>
    intro left right h0 hln hrn hfuel hlow hhigh
    simp only [bsearch]
    by_cases hlr : left ≤ right
    · rw [if_pos hlr]
      have hd0 : 0 ≤ (right - left) / 2 := by omega
      have hd1 : (right - left) / 2 ≤ right - left := by omega
      set mid := left + (right - left) / 2 with hmid
      have hmid0 : 0 ≤ mid := by omega
      have hmidl : left ≤ mid := by omega
      have hmidr : mid ≤ right := by omega
      have hmidc : (mid.toNat : Int) = mid := Int.toNat_of_nonneg hmid0
      have hmidn : mid.toNat < n := by omega
      by_cases heq : f mid.toNat = k
      · rw [if_pos heq]
        exact ⟨hmid0, by omega, Or.inl ⟨by omega, heq⟩⟩
      · rw [if_neg heq]
        by_cases hlt : f mid.toNat < k
        · rw [if_pos hlt]
          refine ih (mid + 1) right (by omega) (by omega) hrn (by
            push_cast at hfuel ⊢
            omega) ?_ hhigh
          intro j hj
          rcases Nat.lt_or_ge j mid.toNat with h | h
          · exact lt_of_le_of_lt (hs j mid.toNat (Nat.le_of_lt h) hmidn) hlt
          · have hje : j = mid.toNat := by omega
            rw [hje]; exact hlt
        · rw [if_neg hlt]
          have hgt : k < f mid.toNat := by omega
          refine ih left (mid - 1) h0 hln (by omega) (by
            push_cast at hfuel ⊢
            omega) hlow ?_
          intro j hj1 hj2
          rcases Nat.lt_or_ge mid.toNat j with h | h
          · exact lt_of_lt_of_le hgt (hs mid.toNat j (Nat.le_of_lt h) hj2)
          · have hje : j = mid.toNat := by omega
            rw [hje]; exact hgt
    · rw [if_neg hlr]
      refine ⟨h0, hln, Or.inr ⟨hlow, ?_⟩⟩
      intro j hj1 hj2
      exact hhigh j (by omega) hj2

/-- Function `find_key_in_node` meets the binary-search contract. -/
theorem find_key_spec (nd : BTreeNode) (k : Int) (hs : SortedNode nd) :
    0 ≤ find_key_in_node nd k ∧ find_key_in_node nd k ≤ (nd.num_keys : Int) ∧
    ((find_key_in_node nd k < (nd.num_keys : Int)
        ∧ nd.keys (find_key_in_node nd k).toNat = k)
      ∨ ((∀ j : Nat, (j : Int) < find_key_in_node nd k → nd.keys j < k)
          ∧ (∀ j : Nat, find_key_in_node nd k ≤ (j : Int) → j < nd.num_keys →
              k < nd.keys j))) := by
  unfold find_key_in_node
  refine bsearch_spec nd.keys k nd.num_keys hs (nd.num_keys + 2) 0
    ((nd.num_keys : Int) - 1) le_rfl (by omega) (by omega)
    (by push_cast; omega) ?_ ?_
  · intro j hj
    exact absurd hj (by omega)
  · intro j hj1 hj2
    exact absurd hj1 (by omega)

/-- Inserting a key at the index the binary search returns keeps the
window monotone (both on an exact hit - a duplicate separator - and at
the strict separation point). -/
theorem shift_insert_sorted (f : Nat → Int) (n : Nat) (k : Int) (r : Int)
    (hr0 : 0 ≤ r) (hrn : r ≤ (n : Int))
    (hspec : (r < (n : Int) ∧ f r.toNat = k)
      ∨ ((∀ j : Nat, (j : Int) < r → f j < k)
          ∧ (∀ j : Nat, r ≤ (j : Int) → j < n → k < f j)))
    (hs : ∀ i j : Nat, i ≤ j → j < n → f i ≤ f j) :
    ∀ i j : Nat, i ≤ j → j < n + 1 →
      (if i = r.toNat then k
       else if r.toNat < i ∧ i ≤ n then f (i - 1) else f i)
      ≤ (if j = r.toNat then k
         else if r.toNat < j ∧ j ≤ n then f (j - 1) else f j) := by
  have hrc : (r.toNat : Int) = r := Int.toNat_of_nonneg hr0
  have hlow : ∀ x : Nat, x < r.toNat → f x ≤ k := by
    intro x hx
    rcases hspec with ⟨h1, h2⟩ | ⟨h1, h2⟩
    · rw [← h2]
      exact hs x r.toNat (Nat.le_of_lt hx) (by omega)
    · exact le_of_lt (h1 x (by omega))
  have hhigh : ∀ x : Nat, r.toNat ≤ x → x < n → k ≤ f x := by
    intro x hx1 hx2
    rcases hspec with ⟨h1, h2⟩ | ⟨h1, h2⟩
    · rw [← h2]
      exact hs r.toNat x hx1 hx2
    · exact le_of_lt (h2 x (by omega) hx2)
  intro a b hab hbn
  rcases Nat.eq_or_lt_of_le hab with he | hlt
  · rw [he]
  by_cases hbr : b = r.toNat
  · rw [if_pos hbr]
    have har : a < r.toNat := by omega
    rw [if_neg (by omega), if_neg (by omega)]
    exact hlow a har
  · rw [if_neg hbr]
    by_cases har : a = r.toNat
    · rw [if_pos har]
      rw [if_pos (by omega)]
      exact hhigh (b - 1) (by omega) (by omega)
    · rw [if_neg har]
      by_cases har2 : a < r.toNat
      · rw [if_neg (by omega)]
        by_cases hbr2 : r.toNat < b
        · rw [if_pos (by omega)]
          calc f a ≤ k := hlow a har2
            _ ≤ f (b - 1) := hhigh (b - 1) (by omega) (by omega)
        · rw [if_neg (by omega)]
          exact hs a b hab (by omega)
      · rw [if_pos (by omega), if_pos (by omega)]
        exact hs (a - 1) (b - 1) (by omega) (by omega)

/-- If a monotone node holds `k` at exactly one window position,
`find_key_in_node` hits that position. -/
theorem find_key_unique_hit (nd2 : BTreeNode) (k : Int) (i0 : Nat)
    (hs2 : SortedNode nd2)
    (hn : i0 < nd2.num_keys)
    (hkey : nd2.keys i0 = k)
    (huq : ∀ x, x < nd2.num_keys → nd2.keys x = k → x = i0) :
    find_key_in_node nd2 k < (nd2.num_keys : Int)
    ∧ (find_key_in_node nd2 k).toNat = i0 := by
  obtain ⟨h0, hle, hdis⟩ := find_key_spec nd2 k hs2
  have hpresent : ¬((∀ j : Nat, (j : Int) < find_key_in_node nd2 k → nd2.keys j < k)
      ∧ (∀ j : Nat, find_key_in_node nd2 k ≤ (j : Int) → j < nd2.num_keys →
          k < nd2.keys j)) := by
    intro hmiss
    obtain ⟨ha, hb⟩ := hmiss
    by_cases hcmp : (i0 : Int) < find_key_in_node nd2 k
    · have h1 := ha i0 hcmp
      rw [hkey] at h1
      exact lt_irrefl k h1
    · have h1 := hb i0 (by omega) hn
      rw [hkey] at h1
      exact lt_irrefl k h1
  have hhit := hdis.resolve_right hpresent
  exact ⟨hhit.1, huq _ (by omega) hhit.2⟩

/-- The full contract of the in-leaf insertion: the node stays monotone
and keeps its type, and re-running `find_key_in_node` on the updated
node lands exactly on the freshly stored value. -/
theorem leaf_insert_spec (nd : BTreeNode) (k : Int) (v : Nat) (hs : SortedNode nd) :
    SortedNode (leaf_insert_node nd k v)
    ∧ (leaf_insert_node nd k v).node_type = nd.node_type
    ∧ (find_key_in_node (leaf_insert_node nd k v) k
          < ((leaf_insert_node nd k v).num_keys : Int)
        ∧ (leaf_insert_node nd k v).keys
            (find_key_in_node (leaf_insert_node nd k v) k).toNat = k
        ∧ (leaf_insert_node nd k v).values
            (find_key_in_node (leaf_insert_node nd k v) k).toNat = v) := by
  obtain ⟨h0, hle, hdis⟩ := find_key_spec nd k hs
  by_cases hc : find_key_in_node nd k < (nd.num_keys : Int)
      ∧ nd.keys (find_key_in_node nd k).toNat = k
  · have hnode : leaf_insert_node nd k v
        = { nd with values := fun i =>
              if i = (find_key_in_node nd k).toNat then v else nd.values i } := by
      unfold leaf_insert_node
      rw [if_pos hc]
    rw [hnode]
    have hfk : find_key_in_node
        { nd with values := fun i =>
            if i = (find_key_in_node nd k).toNat then v else nd.values i } k
        = find_key_in_node nd k := rfl
    refine ⟨hs, rfl, ?_, ?_, ?_⟩
    · rw [hfk]; exact hc.1
    · rw [hfk]; exact hc.2
    · rw [hfk]
      simp
  · obtain ⟨hlow, hhigh⟩ := hdis.resolve_left hc
    have hnode : leaf_insert_node nd k v
        = { nd with
              keys := fun i => if i = (find_key_in_node nd k).toNat then k
                               else if (find_key_in_node nd k).toNat < i ∧
                                   i ≤ nd.num_keys then nd.keys (i - 1)
                               else nd.keys i
              values := fun i => if i = (find_key_in_node nd k).toNat then v
                                 else if (find_key_in_node nd k).toNat < i ∧
                                     i ≤ nd.num_keys then nd.values (i - 1)
                                 else nd.values i
              num_keys := nd.num_keys + 1 } := by
      unfold leaf_insert_node
      rw [if_neg hc]
    rw [hnode]
    set i0 := (find_key_in_node nd k).toNat with hi0
    set nd2 : BTreeNode :=
      { nd with
          keys := fun i => if i = i0 then k
                           else if i0 < i ∧ i ≤ nd.num_keys then nd.keys (i - 1)
                           else nd.keys i
          values := fun i => if i = i0 then v
                             else if i0 < i ∧ i ≤ nd.num_keys then nd.values (i - 1)
                             else nd.values i
          num_keys := nd.num_keys + 1 } with hnd2
    have hknum : nd2.num_keys = nd.num_keys + 1 := by rw [hnd2]
    have hkeys : nd2.keys = fun i => if i = i0 then k
        else if i0 < i ∧ i ≤ nd.num_keys then nd.keys (i - 1)
        else nd.keys i := by rw [hnd2]
    have hvals : nd2.values = fun i => if i = i0 then v
        else if i0 < i ∧ i ≤ nd.num_keys then nd.values (i - 1)
        else nd.values i := by rw [hnd2]
    have htype : nd2.node_type = nd.node_type := by rw [hnd2]
    have hsorted2 : SortedNode nd2 := by
      intro a b hab hbn
      rw [hknum] at hbn
      rw [hkeys]
      exact shift_insert_sorted nd.keys nd.num_keys k (find_key_in_node nd k)
        h0 hle (Or.inr ⟨hlow, hhigh⟩) hs a b hab hbn
    have hlow2 : ∀ y : Nat, y < i0 → nd.keys y < k := by
      intro y hy
      exact hlow y (by omega)
    have hhigh2 : ∀ y : Nat, i0 ≤ y → y < nd.num_keys → k < nd.keys y := by
      intro y hy1 hy2
      exact hhigh y (by omega) hy2
    have hi0le : i0 ≤ nd.num_keys := by omega
    have hn : i0 < nd2.num_keys := by omega
    have hkey : nd2.keys i0 = k := by rw [hkeys]; simp
    have huq : ∀ x, x < nd2.num_keys → nd2.keys x = k → x = i0 := by
      intro x hxn hxk
      rw [hknum] at hxn
      rw [hkeys] at hxk
      simp only [] at hxk
      by_contra hne
      rcases Nat.lt_or_ge x i0 with hxi | hxi
      · rw [if_neg (by omega), if_neg (by omega)] at hxk
        have := hlow2 x hxi
        omega
      · have hxi2 : i0 < x := by omega
        rw [if_neg (by omega), if_pos ⟨hxi2, by omega⟩] at hxk
        have := hhigh2 (x - 1) (by omega) (by omega)
        omega
    have hres := find_key_unique_hit nd2 k i0 hsorted2 hn hkey huq
    refine ⟨hsorted2, htype, hres.1, ?_, ?_⟩
    · rw [hres.2]; exact hkey
    · rw [hres.2, hvals]; simp

/-- A successful descent ends at a page holding a LEAF node. -/
theorem find_leaf_loop_leaf (s : NodeStore) (k : Int) :
    ∀ (fuel current L : Nat), find_leaf_loop s k current fuel = some L →
      (s L).node_type = BTREE_NODE_LEAF := by
  intro fuel
  induction fuel with
  | zero => intro current L h; simp [find_leaf_loop] at h
  | succ fuel ih =>
    intro current L h
    simp only [find_leaf_loop] at h
    by_cases ht : (s current).node_type = BTREE_NODE_LEAF
    · rw [if_pos ht] at h
      cases h
      exact ht
    · rw [if_neg ht] at h
      generalize hnx : (if ((s current).num_keys : Int) ≤ find_key_in_node (s current) k
          then (s current).children (s current).num_keys
          else if k < (s current).keys (find_key_in_node (s current) k).toNat
          then (s current).children (find_key_in_node (s current) k).toNat
          else (s current).children ((find_key_in_node (s current) k).toNat + 1)) = nx at h
      split at h
      · exact absurd h (by simp)
      · exact ih _ _ h

/-- The descent only reads internal nodes until it stops, so replacing
the found leaf's node by any LEAF node leaves the descent unchanged. -/
theorem find_leaf_loop_stable (s : NodeStore) (k : Int) (L : Nat) (nd' : BTreeNode)
    (ht' : nd'.node_type = BTREE_NODE_LEAF) :
    ∀ (fuel current : Nat), find_leaf_loop s k current fuel = some L →
      find_leaf_loop (store_write s L nd') k current fuel = some L := by
  intro fuel
  induction fuel with
  | zero => intro current h; simp [find_leaf_loop] at h
  | succ fuel ih =>
    intro current h
    have hLt := find_leaf_loop_leaf s k (fuel + 1) current L h
    simp only [find_leaf_loop] at h ⊢
    by_cases hc : current = L
    · subst hc
      rw [if_pos hLt] at h
      rw [show store_write s current nd' current = nd' from by simp [store_write]]
      rw [if_pos ht']
    · have hsw : store_write s L nd' current = s current := by
        simp [store_write, hc]
      rw [hsw]
      by_cases ht : (s current).node_type = BTREE_NODE_LEAF
      · rw [if_pos ht] at h ⊢
        exact h
      · rw [if_neg ht] at h ⊢
        generalize hnx : (if ((s current).num_keys : Int) ≤ find_key_in_node (s current) k
            then (s current).children (s current).num_keys
            else if k < (s current).keys (find_key_in_node (s current) k).toNat
            then (s current).children (find_key_in_node (s current) k).toNat
            else (s current).children ((find_key_in_node (s current) k).toNat + 1)) = nx at h ⊢
        split at h
        · exact absurd h (by simp)
        · rename_i hz
          rw [if_neg hz]
          exact ih _ h

/-- A store update whose new node is monotone whenever it is a leaf
preserves the invariant. -/
theorem leavesSorted_write (s : NodeStore) (p : Nat) (nd : BTreeNode)
    (h : LeavesSorted s)
    (hnd : nd.node_type = BTREE_NODE_LEAF → SortedNode nd) :
    LeavesSorted (store_write s p nd) := by
  intro q ht
  by_cases hq : q = p
  · subst hq
    rw [show store_write s q nd q = nd from by simp [store_write]] at ht ⊢
    exact hnd ht
  · rw [show store_write s p nd q = s q from by simp [store_write, hq]] at ht ⊢
    exact h q ht

theorem sortedNode_parent (nd : BTreeNode) (x : Nat) (h : SortedNode nd) :
    SortedNode { nd with parent := x } := h

theorem sortedNode_empty (ty : Nat) : SortedNode (empty_node ty) := by
  intro i j hij hj
  exact absurd hj (by simp [empty_node])

theorem leavesSorted_parent_write (s : NodeStore) (p np : Nat) (h : LeavesSorted s) :
    LeavesSorted (store_write s p { s p with parent := np }) :=
  leavesSorted_write _ _ _ h (fun ht => h p ht)

theorem sorted_num (nd : BTreeNode) (m : Nat) (hm : m ≤ nd.num_keys)
    (h : SortedNode nd) : SortedNode { nd with num_keys := m } :=
  fun a b hab hbn => h a b hab (lt_of_lt_of_le hbn hm)

theorem sorted_num_next (nd : BTreeNode) (m np : Nat) (hm : m ≤ nd.num_keys)
    (h : SortedNode nd) : SortedNode { nd with num_keys := m, next_leaf := np } :=
  fun a b hab hbn => h a b hab (lt_of_lt_of_le hbn hm)

/-- The upper half copied out by a leaf split is monotone. -/
theorem sorted_suffix (nd : BTreeNode) (si ty pr nl : Nat) (h : SortedNode nd) :
    SortedNode
      { node_type := ty, num_keys := nd.num_keys - si, parent := pr,
        next_leaf := nl,
        keys := fun i => if i < nd.num_keys - si then nd.keys (si + i) else 0,
        children := fun _ => 0,
        values := fun i => if i < nd.num_keys - si then nd.values (si + i) else 0 } := by
  intro a b hab hbn
  have hbn' : b < nd.num_keys - si := hbn
  show (if a < nd.num_keys - si then nd.keys (si + a) else 0)
      ≤ (if b < nd.num_keys - si then nd.keys (si + b) else 0)
  rw [if_pos (by omega), if_pos hbn']
  exact h (si + a) (si + b) (by omega) (by omega)

theorem split_leaf_leavesSorted (t : BTree) (lp : Nat)
    (h : LeavesSorted t.store)
    (hleaf : (t.store lp).node_type = BTREE_NODE_LEAF)
    (hfull : BTREE_ORDER ≤ (t.store lp).num_keys) :
    LeavesSorted (split_leaf_node t lp).1.store := by
  have hold : SortedNode (t.store lp) := h lp hleaf
  have h32 : BTREE_ORDER / 2 = 32 := rfl
  have h64 : BTREE_ORDER = 64 := rfl
  refine leavesSorted_write _ _ _
    (leavesSorted_write _ _ _
      (leavesSorted_write _ _ _ h (fun _ => sortedNode_empty _)) ?_) ?_
  · intro _
    exact sorted_num_next (t.store lp) _ _ (by omega) hold
  · intro _
    exact sorted_suffix (t.store lp) (BTREE_ORDER / 2) _ _ _ hold

theorem leavesSorted_parent_foldl (np : Nat) (cf : Nat → Nat) :
    ∀ (l : List Nat) (st : NodeStore), LeavesSorted st →
      LeavesSorted (l.foldl (fun st2 i => store_write st2 (cf i)
        { st2 (cf i) with parent := np }) st) := by
  intro l
  induction l with
  | nil => intro st h; exact h
  | cons a rest ih =>
    intro st h
    simp only [List.foldl_cons]
    exact ih _ (leavesSorted_parent_write _ _ _ h)

theorem split_internal_leavesSorted (t : BTree) (p : Nat)
    (h : LeavesSorted t.store)
    (hfull : BTREE_ORDER ≤ (t.store p).num_keys) :
    LeavesSorted (split_internal_node t p).1.store := by
  have h32 : BTREE_ORDER / 2 = 32 := rfl
  have h64 : BTREE_ORDER = 64 := rfl
  have hbase : LeavesSorted (store_write t.store t.next_page
      (empty_node BTREE_NODE_INTERNAL)) :=
    leavesSorted_write _ _ _ h (fun ht => absurd ht (by decide))
  refine leavesSorted_write _ _ _
    (leavesSorted_write _ _ _ (leavesSorted_parent_foldl _ _ _ _ hbase) ?_)
    (fun ht => absurd (show BTREE_NODE_INTERNAL = BTREE_NODE_LEAF from ht) (by decide))
  intro ht
  exact sorted_num (t.store p) (BTREE_ORDER / 2) (by omega) (h p ht)

/-- Inserting a separator into a node keeps the invariant: the shifted
key window is monotone whenever the old one was (a duplicate separator
is allowed by the monotone ordering). -/
theorem insert_internal_leavesSorted (t : BTree) (pp : Nat) (k : Int) (rp : Nat)
    (h : LeavesSorted t.store) :
    LeavesSorted (insert_key_into_internal t pp k rp).store := by
  have h1 : LeavesSorted (store_write t.store pp
      { t.store pp with
          keys := fun i => if i = (find_key_in_node (t.store pp) k).toNat then k
                           else if (find_key_in_node (t.store pp) k).toNat < i ∧
                               i ≤ (t.store pp).num_keys then (t.store pp).keys (i - 1)
                           else (t.store pp).keys i
          children := fun i => if i = (find_key_in_node (t.store pp) k).toNat + 1 then rp
                               else if (find_key_in_node (t.store pp) k).toNat + 1 < i ∧
                                   i ≤ (t.store pp).num_keys + 1 then
                                 (t.store pp).children (i - 1)
                               else (t.store pp).children i
          num_keys := (t.store pp).num_keys + 1 }) := by
    refine leavesSorted_write _ _ _ h ?_
    intro htype
    have hpn : SortedNode (t.store pp) := h pp htype
    obtain ⟨h0, hle, hdis⟩ := find_key_spec (t.store pp) k hpn
    intro a b hab hbn
    exact shift_insert_sorted (t.store pp).keys (t.store pp).num_keys k
      (find_key_in_node (t.store pp) k) h0 hle hdis hpn a b hab hbn
  exact leavesSorted_write _ _ _ h1 (fun ht => h1 rp ht)

/-- `insert_into_parent` preserves the invariant: every node it writes -
fresh internal nodes, split halves, shifted parents, repointed children -
is monotone whenever it is a leaf. -/
theorem insert_into_parent_leavesSorted :
    ∀ (fuel : Nat) (t : BTree) (lp : Nat) (k : Int) (rp : Nat) (t2 : BTree),
      insert_into_parent t lp k rp fuel = some t2 →
      LeavesSorted t.store → LeavesSorted t2.store := by
  intro fuel
  induction fuel with
  | zero => intro t lp k rp t2 hins _; simp [insert_into_parent] at hins
  | succ fuel ih =>
    intro t lp k rp t2 hins h
    simp only [insert_into_parent] at hins
    by_cases hpp : (t.store lp).parent = 0
    · rw [if_pos hpp] at hins
      have ht2 := Option.some.inj hins
      rw [← ht2]
      refine leavesSorted_parent_write _ _ _ (leavesSorted_parent_write _ _ _
        (leavesSorted_write _ _ _
          (leavesSorted_write _ _ _ h
            (fun ht => absurd ht (by decide))) ?_))
      intro ht
      exact absurd (show BTREE_NODE_INTERNAL = BTREE_NODE_LEAF from ht) (by decide)
    · rw [if_neg hpp] at hins
      by_cases hfull : BTREE_ORDER ≤ (t.store ((t.store lp).parent)).num_keys
      · rw [if_pos hfull] at hins
        cases hrec : insert_into_parent
            (split_internal_node t ((t.store lp).parent)).1
            ((t.store lp).parent)
            (split_internal_node t ((t.store lp).parent)).2.1
            (split_internal_node t ((t.store lp).parent)).2.2 fuel with
        | none =>
          rw [hrec] at hins
          simp at hins
        | some t3 =>
          rw [hrec] at hins
          simp only [Option.some.injEq] at hins
          have h3 := ih _ _ _ _ _ hrec
            (split_internal_leavesSorted t ((t.store lp).parent) h hfull)
          rw [← hins]
          exact insert_internal_leavesSorted t3 _ k rp h3
      · rw [if_neg hfull] at hins
        simp only [Option.some.injEq] at hins
        rw [← hins]
        exact insert_internal_leavesSorted t _ k rp h

/-- The common tail of `btree_insert`: writing the inserted leaf back
makes the subsequent `btree_search` for the key return the value, and
keeps the invariant.  The descent of the search retraces the insert's
descent because only the found leaf's page changed. -/
theorem insert_at_leaf_spec (t : BTree) (k : Int) (v : Nat) (L : Nat)
    (hs : LeavesSorted t.store)
    (hfind : find_leaf_page t k = some L) :
    btree_search { t with store := store_write t.store L (leaf_insert_node (t.store L) k v) } k = ((0 : Int), v)
    ∧ LeavesSorted (store_write t.store L (leaf_insert_node (t.store L) k v)) := by
  have hLt : (t.store L).node_type = BTREE_NODE_LEAF :=
    find_leaf_loop_leaf t.store k AMIDB_MAX_PAGES t.root_page L hfind
  have hsor : SortedNode (t.store L) := hs L hLt
  obtain ⟨hsor', htype', hfk1, hfk2, hfk3⟩ := leaf_insert_spec (t.store L) k v hsor
  have htype2 : (leaf_insert_node (t.store L) k v).node_type = BTREE_NODE_LEAF := by
    rw [htype']; exact hLt
  constructor
  · have hfind' : find_leaf_page { t with store := store_write t.store L (leaf_insert_node (t.store L) k v) } k = some L := by
      unfold find_leaf_page at hfind ⊢
      exact find_leaf_loop_stable t.store k L _ htype2 _ _ hfind
    unfold btree_search
    rw [hfind']
    simp only [store_write, eq_self_iff_true, if_true]
    rw [if_pos ⟨hfk1, hfk2⟩, hfk3]
  · exact leavesSorted_write _ _ _ hs (fun _ => hsor')

/-- C1: on every B+Tree state satisfying the reachability invariant
(every LEAF node's key window is monotone - true of `btree_create`'s
empty root and, as the last conjunct shows, preserved by every insert,
so it holds in every reachable state), a successful
`btree_insert(k, v)` followed by `btree_search(k)` returns `v`.  The
update-in-place branch of the insert covers the upsert case: the newly
stored value wins. -/
theorem C1_insert_search (t : BTree) (k : Int) (v : Nat)
    (hs : LeavesSorted t.store)
    (hok : (btree_insert t k v).1 = 0) :
    btree_search (btree_insert t k v).2 k = ((0 : Int), v)
    ∧ LeavesSorted (btree_insert t k v).2.store := by
  unfold btree_insert at hok ⊢
  cases hfl : find_leaf_page t k with
  | none =>
    rw [hfl] at hok
    simp at hok
  | some L =>
    rw [hfl] at hok
    simp only [] at hok ⊢
    by_cases hfull : BTREE_ORDER ≤ (t.store L).num_keys
    · rw [if_pos hfull] at hok ⊢
      have hLt := find_leaf_loop_leaf t.store k AMIDB_MAX_PAGES t.root_page L hfl
      have h1 := split_leaf_leavesSorted t L hs hLt hfull
      cases hrec : insert_into_parent (split_leaf_node t L).1 L
          (split_leaf_node t L).2.1 (split_leaf_node t L).2.2 AMIDB_MAX_PAGES with
      | none =>
        rw [hrec] at hok
        simp at hok
      | some t2 =>
        rw [hrec] at hok
        simp only [] at hok ⊢
        have h2 := insert_into_parent_leavesSorted AMIDB_MAX_PAGES _ _ _ _ _ hrec h1
        cases hfl2 : find_leaf_page t2 k with
        | none =>
          rw [hfl2] at hok
          simp at hok
        | some L2 =>
          rw [hfl2] at hok
          simp only [] at hok ⊢
          exact insert_at_leaf_spec t2 k v L2 h2 hfl2
    · rw [if_neg hfull] at hok ⊢
      exact insert_at_leaf_spec t k v L hs hfl

/-- A fresh tree as `btree_create` builds it: the root page holds an
empty LEAF node (all other pages hold unconstrained data; here zeroed
leaves, trivially monotone). -/
def c1_tree : BTree :=
  { store := fun _ => empty_node BTREE_NODE_LEAF, root_page := 1, next_page := 2 }

/-- Witness: inserting key 5 with value 42 into the fresh tree succeeds
and the search returns 42. -/
theorem C1_witness :
    LeavesSorted c1_tree.store
    ∧ (btree_insert c1_tree 5 42).1 = 0
    ∧ btree_search (btree_insert c1_tree 5 42).2 5 = ((0 : Int), 42)
    ∧ LeavesSorted (btree_insert c1_tree 5 42).2.store :=
  have hsw : LeavesSorted c1_tree.store :=
    fun _ _ _ j _ hj => absurd hj (Nat.not_lt_zero j)
  have hokw : (btree_insert c1_tree 5 42).1 = 0 := by decide
  ⟨hsw, hokw, (C1_insert_search c1_tree 5 42 hsw hokw).1,
    (C1_insert_search c1_tree 5 42 hsw hokw).2⟩

end AmiDB
